import Mathlib

/-!
Verification of the Futoshiki CSP engine (propagators.py, futoshiki_csp.py).

Variables are represented by natural-number identifiers (their creation
order).  The mutable per-variable search state (current domains and
assignments) is threaded explicitly through the propagator functions.
Constraint and CSP records carry exactly the data the propagators read;
constraint name strings are dropped since no behaviour depends on them.
-/

set_option maxRecDepth 10000

/-- Modelled from the spec: the mutable search state of the `Variable`
objects of `cspbase.py` (a file the repository imports but does not ship):
`curdom` holds each variable's current domain (indexed by variable id) and
`assigned` holds each variable's assigned value, `none` when unassigned. -/
structure SState where
  curdom : List (List Int)
  assigned : List (Option Int)
deriving DecidableEq

/-- Modelled from the spec: a `Constraint` of `cspbase.py`: an ordered scope
of variable ids and the list of satisfying value tuples. -/
structure Constraint where
  scope : List Nat
  satTuples : List (List Int)
deriving DecidableEq

/-- Modelled from the spec: a `CSP` of `cspbase.py`: all variable ids and all
constraints, in creation order. -/
structure CSP where
  vars : List Nat
  cons : List Constraint
deriving DecidableEq

/-- Modelled from the spec: `Variable.get_assigned_value` (`none` when the
variable is unassigned). -/
def getAssigned (st : SState) (v : Nat) : Option Int :=
  st.assigned.getD v none

/-- The raw current-domain list stored for variable `v`. -/
def curdomOf (st : SState) (v : Nat) : List Int :=
  st.curdom.getD v []

/-- Modelled from the spec: `Variable.is_assigned`. -/
def isAssigned (st : SState) (v : Nat) : Bool :=
  (getAssigned st v).isSome

/-- Modelled from the spec: `Variable.cur_domain` returns `[assigned_value]`
for an assigned variable and the current domain otherwise. -/
def curDomain (st : SState) (v : Nat) : List Int :=
  match getAssigned st v with
  | some x => [x]
  | none => curdomOf st v

/-- Modelled from the spec: `Variable.prune_value` removes a value from the
variable's current domain. -/
def pruneValue (st : SState) (v : Nat) (val : Int) : SState :=
  { st with curdom := st.curdom.set v ((curdomOf st v).erase val) }

/-- Modelled from the spec: `CSP.get_cons_with_var`: all constraints whose
scope contains `v`. -/
def getConsWithVar (csp : CSP) (v : Nat) : List Constraint :=
  csp.cons.filter fun c => decide (v ∈ c.scope)

/-- Modelled from the spec: `Constraint.get_unasgn_vars` (scope order). -/
def unasgnVars (st : SState) (c : Constraint) : List Nat :=
  c.scope.filter fun v => !isAssigned st v

/-- Modelled from the spec: `Constraint.check`: membership of the value tuple
in the satisfying-tuple list. -/
def Constraint.check (c : Constraint) (vals : List Int) : Bool :=
  decide (vals ∈ c.satTuples)

/-- Helper for `hasSupport`: positions other than `k` of the tuple must hold
a value in the current domain of the corresponding scope variable; tuples
whose length differs from the scope length support nothing. -/
def suppAux (st : SState) (k : Nat) : Nat → List Nat → List Int → Bool
  | _, [], [] => true
  | i, w :: ws, x :: xs =>
    (i == k || decide (x ∈ curDomain st w)) && suppAux st k (i + 1) ws xs
  | _, _, _ => false

/-- Modelled from the spec: `Constraint.has_support var val`: some satisfying
tuple has `val` at `var`'s position and, at every other position, a value
belonging to that scope variable's current domain. -/
def hasSupport (st : SState) (c : Constraint) (v : Nat) (val : Int) : Bool :=
  c.satTuples.any fun t =>
    (t.get? (c.scope.indexOf v) == some val) && suppAux st (c.scope.indexOf v) 0 c.scope t

/-- The inner value loop shared by `prop_FC` and `prop_GAC`
(`for value in var.cur_domain(): if not c.has_support(var, value):
var.prune_value(value); pruned.append((var, value))`), iterating over a
snapshot of the domain while the state evolves. -/
def pruneUnsupported (c : Constraint) (v : Nat) : SState → List Int → SState × List (Nat × Int)
  | st, [] => (st, [])
  | st, val :: rest =>
    if hasSupport st c v val then pruneUnsupported c v st rest
    else
      let res := pruneUnsupported c v (pruneValue st v val) rest
      (res.1, (v, val) :: res.2)

/-- `prop_BT`'s constraint loop: fail on the first fully instantiated
constraint whose check on the assigned values is false. -/
def btCheckCons (st : SState) : List Constraint → Bool
  | [] => true
  | c :: rest =>
    if (unasgnVars st c).length == 0 then
      if c.check (c.scope.map fun w => (getAssigned st w).getD 0) then btCheckCons st rest
      else false
    else btCheckCons st rest

/-- `prop_BT` from propagators.py: plain backtracking propagation.  The
state is threaded unchanged since the source never prunes here. -/
def prop_BT (csp : CSP) (st : SState) (newVar : Option Nat) :
    Bool × List (Nat × Int) × SState :=
  match newVar with
  | none => (true, [], st)
  | some v => (btCheckCons st (getConsWithVar csp v), [], st)

/-- `prop_FC`'s scan over a constraint's scope: the unassigned variables are
forward-checked, with an early failure exit on a domain wipeout. -/
def fcScanScope (c : Constraint) : SState → List Nat → SState × List (Nat × Int) × Bool
  | st, [] => (st, [], true)
  | st, v :: rest =>
    if isAssigned st v then fcScanScope c st rest
    else
      let r1 := pruneUnsupported c v st (curDomain st v)
      if (curDomain r1.1 v).length == 0 then (r1.1, r1.2, false)
      else
        let r2 := fcScanScope c r1.1 rest
        (r2.1, r1.2 ++ r2.2.1, r2.2.2)

/-- `prop_FC`'s constraint loop: only constraints with exactly one
unassigned variable are processed. -/
def fcLoop : SState → List Constraint → SState × List (Nat × Int) × Bool
  | st, [] => (st, [], true)
  | st, c :: rest =>
    if (unasgnVars st c).length == 1 then
      let r1 := fcScanScope c st c.scope
      if r1.2.2 then
        let r2 := fcLoop r1.1 rest
        (r2.1, r1.2.1 ++ r2.2.1, r2.2.2)
      else (r1.1, r1.2.1, false)
    else fcLoop st rest

/-- `prop_FC` from propagators.py: forward checking over all constraints
(`newVar = none`) or the constraints touching `newVar`. -/
def prop_FC (csp : CSP) (st : SState) (newVar : Option Nat) :
    Bool × List (Nat × Int) × SState :=
  let cs := match newVar with
    | none => csp.cons
    | some v => getConsWithVar csp v
  let r := fcLoop st cs
  (r.2.2, r.2.1, r.1)

/-- `prop_GAC`'s loop over one constraint's unassigned variables: prune
unsupported values, fail on a wipeout, and (when something was pruned)
collect `get_cons_with_var(var)` for appending to the worklist. -/
def gacVarsLoop (csp : CSP) (c : Constraint) :
    SState → List Nat → SState × List (Nat × Int) × Bool × List Constraint
  | st, [] => (st, [], true, [])
  | st, v :: rest =>
    let r1 := pruneUnsupported c v st (curDomain st v)
    if (curDomain r1.1 v).length == 0 then (r1.1, r1.2, false, [])
    else
      let app := if r1.2.isEmpty then [] else getConsWithVar csp v
      let r2 := gacVarsLoop csp c r1.1 rest
      (r2.1, r1.2 ++ r2.2.1, r2.2.2.1, app ++ r2.2.2.2)

/-- Processing of one worklist entry of `prop_GAC` (the body of
`for constraint in constraint_queue`). -/
def gacProcessCons (csp : CSP) (st : SState) (c : Constraint) :
    SState × List (Nat × Int) × Bool × List Constraint :=
  gacVarsLoop csp c st (unasgnVars st c)

/-- `prop_GAC`'s worklist loop.  The Python `for` loop iterates over a list
that is appended to while iterating, i.e. a FIFO worklist; the embedding
makes the recursion explicit and uses fuel, since termination is exactly
what claim C4 asserts. -/
def gacLoopF (csp : CSP) : Nat → SState → List Constraint →
    Option (Bool × List (Nat × Int) × SState)
  | 0, _, _ => none
  | _ + 1, st, [] => some (true, [], st)
  | fuel + 1, st, c :: rest =>
    let r := gacProcessCons csp st c
    if r.2.2.1 then
      match gacLoopF csp fuel r.1 (rest ++ r.2.2.2) with
      | none => none
      | some (ok2, ps2, st2) => some (ok2, r.2.1 ++ ps2, st2)
    else some (false, r.2.1, r.1)

/-- `prop_GAC` from propagators.py: the worklist starts as all constraints
(`newVar = none`) or the constraints touching `newVar`. -/
def prop_GAC (csp : CSP) (fuel : Nat) (st : SState) (newVar : Option Nat) :
    Option (Bool × List (Nat × Int) × SState) :=
  let queue := match newVar with
    | none => csp.cons
    | some v => getConsWithVar csp v
  gacLoopF csp fuel st queue

/-- `ord_mrv`'s scan: `dom_count` starts at `math.inf` (modelled as `none`)
and `mrv` is updated on every strictly smaller current-domain size. -/
def mrvLoop (st : SState) : List Nat → Option Nat → Nat → Nat
  | [], _, mrv => mrv
  | v :: rest, domCount, mrv =>
    let count := (curDomain st v).length
    match domCount with
    | none => mrvLoop st rest (some count) v
    | some d =>
      if count < d then mrvLoop st rest (some count) v
      else mrvLoop st rest domCount mrv

/-- `ord_mrv` from propagators.py.  `csp.get_all_vars().pop(0)` raises on an
empty variable list, which the embedding renders as `none`. -/
def ord_mrv (csp : CSP) (st : SState) : Option Nat :=
  match csp.vars with
  | [] => none
  | v0 :: _ => some (mrvLoop st csp.vars none v0)

example :
    prop_BT ⟨[0], [⟨[0], [[1]]⟩]⟩ ⟨[[1]], [some 2]⟩ (some 0) =
      (false, [], ⟨[[1]], [some 2]⟩) := by decide

example :
    prop_FC ⟨[0, 1], [⟨[0, 1], [[1, 2], [2, 1]]⟩]⟩ ⟨[[1], [1, 2]], [some 1, none]⟩ (some 0) =
      (true, [(1, 1)], ⟨[[1], [2]], [some 1, none]⟩) := by decide

example :
    prop_GAC ⟨[0, 1], [⟨[0, 1], [[1, 2], [2, 1]]⟩]⟩ 4 ⟨[[1, 2], [1, 2]], [none, none]⟩ none =
      some (true, [], ⟨[[1, 2], [1, 2]], [none, none]⟩) := by decide

example :
    ord_mrv ⟨[0, 1, 2], []⟩ ⟨[[1, 2, 3], [4], [5, 6]], [none, none, none]⟩ =
      some 1 := by decide

/-! ### futoshiki_csp.py: the two model builders -/

/-- A cell of the input grid: a number (`0` = empty), or one of the
separator symbols `<`, `>`, `.` found at odd column positions. -/
inductive Cell where
  | num : Int → Cell
  | lt
  | gt
  | dot
deriving DecidableEq

/-- Grid lookup `futo_grid[row][col]`. -/
def getCell (grid : List (List Cell)) (row col : Nat) : Cell :=
  (grid.getD row []).getD col Cell.dot

/-- `var_setup` from futoshiki_csp.py: the original domain of a cell's
variable — the full domain for an empty (`0`) cell, the singleton of the
pre-filled value otherwise.  (A non-numeric cell at a variable position is
outside the integer value model; the source would build a variable whose
domain holds the separator string.) -/
def var_setup (cell : Cell) (var_domain : List Int) : List Int :=
  match cell with
  | .num v => if v = 0 then var_domain else [v]
  | _ => []

/-- The satisfying tuples built by `ineq_constraint`: all ordered pairs of
the two current domains related by `>` (when `greaterThan`) or `<`. -/
def ineqTuples (d1 d2 : List Int) (greaterThan : Bool) : List (List Int) :=
  d1.flatMap fun v1 =>
    (d2.filter fun v2 => if greaterThan then decide (v2 < v1) else decide (v1 < v2)).map
      fun v2 => [v1, v2]

/-- The satisfying tuples built by `binary_constraint`: all ordered pairs of
the two current domains with distinct components. -/
def notEqTuples (d1 d2 : List Int) : List (List Int) :=
  d1.flatMap fun v1 => (d2.filter fun v2 => decide (v1 ≠ v2)).map fun v2 => [v1, v2]

/-- `every_tuple` of `all_diff_constraint`: the left fold
`every_tuple = [x+[y] for x in every_tuple for y in pool]` over the domain
pools, i.e. the full cross-product. -/
def crossProd (domains : List (List Int)) : List (List Int) :=
  domains.foldl (fun acc pool => acc.flatMap fun x => pool.map fun y => x ++ [y]) [[]]

/-- The `valid` check of `all_diff_constraint`: no two positions
`i < j < num_vars` of the tuple hold equal values. -/
def allDiffValid (numVars : Nat) (t : List Int) : Bool :=
  (List.range numVars).all fun i =>
    (List.range' (i + 1) (numVars - (i + 1))).all fun j => !(t.getD i 0 == t.getD j 0)

/-- The satisfying tuples of `all_diff_constraint`: the cross-product
filtered by the pairwise-distinctness check. -/
def all_diff_tuples (domains : List (List Int)) (numVars : Nat) : List (List Int) :=
  (crossProd domains).filter (allDiffValid numVars)

/-- `all_diff_constraint` from futoshiki_csp.py, as the constraint it adds. -/
def all_diff_constraint (scope : List Nat) (domains : List (List Int)) (numVars : Nat) :
    Constraint :=
  ⟨scope, all_diff_tuples domains numVars⟩

/-- Build-time state of the grid scan shared by both models: the per-row
variable-id lists (`variables`), the original domain of each id in creation
order, and the constraints added so far. -/
structure BuildSt where
  rows : List (List Nat)
  doms : List (List Int)
  cons : List Constraint
deriving DecidableEq

/-- `ineq_constraint` from futoshiki_csp.py, for the operator at `(row, col)`:
scope `[variables[row][col/2 - 1], variables[row][col/2]]` with the ordered
pairs of their current (= original) domains. -/
def ineq_constraint (b : BuildSt) (row col : Nat) (greaterThan : Bool) : Constraint :=
  let v1 := (b.rows.getD row []).getD (col / 2 - 1) 0
  let v2 := (b.rows.getD row []).getD (col / 2) 0
  ⟨[v1, v2], ineqTuples (b.doms.getD v1 []) (b.doms.getD v2 []) greaterThan⟩

/-- One cell of the build scan: even columns create a variable; odd columns
add an inequality constraint when `futo_grid[row][col - 1]` is `<` or `>`
(note the source tests column `col - 1`, the cell before the operator). -/
def scanCell (grid : List (List Cell)) (varDomain : List Int) (row col : Nat)
    (b : BuildSt) : BuildSt :=
  if col % 2 = 0 then
    { b with
      rows := b.rows.set row ((b.rows.getD row []) ++ [b.doms.length])
      doms := b.doms ++ [var_setup (getCell grid row col) varDomain] }
  else if 0 < col ∧ (getCell grid row (col - 1) = Cell.lt ∨ getCell grid row (col - 1) = Cell.gt) then
    { b with cons := b.cons ++ [ineq_constraint b row col (decide (getCell grid row (col - 1) = Cell.gt))] }
  else b

/-- The inner column loop of the build scan. -/
def scanCols (grid : List (List Cell)) (vd : List Int) (row : Nat) :
    BuildSt → List Nat → BuildSt
  | b, [] => b
  | b, col :: rest => scanCols grid vd row (scanCell grid vd row col b) rest

/-- The outer row loop of the build scan. -/
def scanRows (grid : List (List Cell)) (vd : List Int) (numCol : Nat) :
    BuildSt → List Nat → BuildSt
  | b, [] => b
  | b, row :: rest => scanRows grid vd numCol (scanCols grid vd row b (List.range numCol)) rest

/-- The variable-domain list `[1, ..., n]` both models build. -/
def varDomainOf (n : Nat) : List Int :=
  (List.range n).map fun i => (i : Int) + 1

/-- The full grid scan (variable creation plus inequality constraints),
identical in `futoshiki_csp_model_1` and `futoshiki_csp_model_2`. -/
def scanGrid (grid : List (List Cell)) : BuildSt :=
  scanRows grid (varDomainOf grid.length) (grid.headD []).length
    ⟨List.replicate grid.length [], [], []⟩ (List.range grid.length)

/-- `binary_constraint` from futoshiki_csp.py: a not-equal constraint over a
row pair (`rowConstraint`) or a column pair. -/
def binary_constraint (b : BuildSt) (rowConstraint : Bool) (row col1 col2 col row1 row2 : Nat) :
    Constraint :=
  let v1 := if rowConstraint then (b.rows.getD row []).getD col1 0
            else (b.rows.getD row1 []).getD col 0
  let v2 := if rowConstraint then (b.rows.getD row []).getD col2 0
            else (b.rows.getD row2 []).getD col 0
  ⟨[v1, v2], notEqTuples (b.doms.getD v1 []) (b.doms.getD v2 [])⟩

/-- The row/column not-equal constraints of model 1, in the source's
`for i: for j: for k in range(j+1, n)` order (row pair then column pair). -/
def model1BinCons (b : BuildSt) (n : Nat) : List Constraint :=
  (List.range n).flatMap fun i =>
    (List.range n).flatMap fun j =>
      (List.range' (j + 1) (n - (j + 1))).flatMap fun k =>
        [binary_constraint b true i j k i j k, binary_constraint b false i j k i j k]

/-- A built model: the CSP, the initial search state (current domains =
original domains, nothing assigned), and the `variables` array of ids. -/
structure BuiltModel where
  csp : CSP
  init : SState
  varArray : List (List Nat)
deriving DecidableEq

/-- `futoshiki_csp_model_1` from futoshiki_csp.py. -/
def futoshiki_csp_model_1 (grid : List (List Cell)) : BuiltModel :=
  let b := scanGrid grid
  ⟨⟨List.range b.doms.length, b.cons ++ model1BinCons b grid.length⟩,
    ⟨b.doms, List.replicate b.doms.length none⟩, b.rows⟩

/-- The all-different constraints of model 2: for each `i`, one over row `i`
and one over column `i`, with the domain lists read off the variables'
current (= original) domains. -/
def model2ADCons (b : BuildSt) (n : Nat) : List Constraint :=
  (List.range n).flatMap fun i =>
    [all_diff_constraint (b.rows.getD i []) ((b.rows.getD i []).map fun v => b.doms.getD v []) n,
      all_diff_constraint ((List.range n).map fun j => (b.rows.getD j []).getD i 0)
        (((List.range n).map fun j => (b.rows.getD j []).getD i 0).map fun v => b.doms.getD v []) n]

/-- `futoshiki_csp_model_2` from futoshiki_csp.py. -/
def futoshiki_csp_model_2 (grid : List (List Cell)) : BuiltModel :=
  let b := scanGrid grid
  ⟨⟨List.range b.doms.length, b.cons ++ model2ADCons b grid.length⟩,
    ⟨b.doms, List.replicate b.doms.length none⟩, b.rows⟩

/-- A full assignment (variable id to value) satisfies a constraint when the
scope's value tuple is a satisfying tuple. -/
def satisfiesC (a : Nat → Int) (c : Constraint) : Prop :=
  c.scope.map a ∈ c.satTuples

/-- The empty 3×3 grid with no inequality symbols: all cells `0`, domains
`{1, 2, 3}`. -/
def grid3 : List (List Cell) :=
  [[Cell.num 0, Cell.dot, Cell.num 0, Cell.dot, Cell.num 0],
    [Cell.num 0, Cell.dot, Cell.num 0, Cell.dot, Cell.num 0],
    [Cell.num 0, Cell.dot, Cell.num 0, Cell.dot, Cell.num 0]]

/-! ### Basic lemmas -/

lemma mem_getConsWithVar {csp : CSP} {v : Nat} {c : Constraint} :
    c ∈ getConsWithVar csp v ↔ c ∈ csp.cons ∧ v ∈ c.scope := by
  simp [getConsWithVar]

/-! ### C5: prop_BT -/

lemma btCheckCons_eq_false_iff (st : SState) (cs : List Constraint) :
    btCheckCons st cs = false ↔
      ∃ c ∈ cs, (unasgnVars st c).length = 0 ∧
        c.check (c.scope.map fun w => (getAssigned st w).getD 0) = false := by
  induction cs with
  | nil => simp [btCheckCons]
  | cons c rest ih =>
    have hstep : btCheckCons st (c :: rest) =
        if (unasgnVars st c).length == 0 then
          if c.check (c.scope.map fun w => (getAssigned st w).getD 0) then btCheckCons st rest
          else false
        else btCheckCons st rest := rfl
    by_cases h1 : (unasgnVars st c).length = 0
    · by_cases h2 : c.check (c.scope.map fun w => (getAssigned st w).getD 0) = true
      · rw [hstep, if_pos (by simpa using h1), if_pos h2, ih]
        constructor
        · rintro ⟨c', hc', hp⟩; exact ⟨c', List.mem_cons_of_mem _ hc', hp⟩
        · rintro ⟨c', hc', hz, hf⟩
          rcases List.mem_cons.mp hc' with rfl | hc'
          · rw [h2] at hf; cases hf
          · exact ⟨c', hc', hz, hf⟩
      · simp only [Bool.not_eq_true] at h2
        rw [hstep, if_pos (by simpa using h1), if_neg (by simp [h2])]
        exact ⟨fun _ => ⟨c, List.mem_cons_self c rest, h1, h2⟩, fun _ => rfl⟩
    · rw [hstep, if_neg (by simpa using h1), ih]
      constructor
      · rintro ⟨c', hc', hp⟩; exact ⟨c', List.mem_cons_of_mem _ hc', hp⟩
      · rintro ⟨c', hc', hz, hf⟩
        rcases List.mem_cons.mp hc' with rfl | hc'
        · exact absurd hz h1
        · exact ⟨c', hc', hz, hf⟩

/-- **C5**: `prop_BT(csp, None)` returns `(True, [])`; with a newly assigned
variable `v` it returns `False` iff some constraint touching `v` with zero
unassigned variables fails its `check` on the scope's assigned values; the
prune list is always empty and no current domain is modified. -/
theorem prop_BT_plain_backtracking (csp : CSP) (st : SState) :
    prop_BT csp st none = (true, [], st) ∧
      (∀ v : Nat,
        (prop_BT csp st (some v)).1 = false ↔
          ∃ c ∈ getConsWithVar csp v, (unasgnVars st c).length = 0 ∧
            c.check (c.scope.map fun w => (getAssigned st w).getD 0) = false) ∧
      (∀ newVar : Option Nat,
        (prop_BT csp st newVar).2.1 = [] ∧ (prop_BT csp st newVar).2.2 = st) := by
  refine ⟨rfl, fun v => ?_, fun newVar => ?_⟩
  · simpa [prop_BT] using btCheckCons_eq_false_iff st (getConsWithVar csp v)
  · cases newVar <;> simp [prop_BT]

/-! ### C6: ord_mrv -/

lemma mrvLoop_spec (st : SState) :
    ∀ (vs : List Nat) (d m r : Nat), mrvLoop st vs (some d) m = r →
      (r = m ∧ ∀ v ∈ vs, d ≤ (curDomain st v).length) ∨
      (∃ pre post, vs = pre ++ r :: post ∧
        (curDomain st r).length < d ∧
        (∀ u ∈ pre, (curDomain st r).length < (curDomain st u).length) ∧
        (∀ u ∈ post, (curDomain st r).length ≤ (curDomain st u).length)) := by
  intro vs
  induction vs with
  | nil => intro d m r hr; left; exact ⟨hr.symm, by simp⟩
  | cons v rest ih =>
    intro d m r hr
    by_cases hc : (curDomain st v).length < d
    · have hstep : mrvLoop st (v :: rest) (some d) m =
          mrvLoop st rest (some (curDomain st v).length) v := by
        simp [mrvLoop, hc]
      rw [hstep] at hr
      rcases ih (curDomain st v).length v r hr with
        ⟨heq, hall⟩ | ⟨pre, post, hsplit, hlt, hpre, hpost⟩
      · right
        refine ⟨[], rest, by simp [heq], ?_, by simp, ?_⟩
        · rw [heq]; exact hc
        · intro u hu; rw [heq]; exact hall u hu
      · right
        refine ⟨v :: pre, post, by simp [hsplit], lt_trans hlt hc, ?_, hpost⟩
        intro u hu
        rcases List.mem_cons.mp hu with rfl | hu
        · exact hlt
        · exact hpre u hu
    · have hstep : mrvLoop st (v :: rest) (some d) m = mrvLoop st rest (some d) m := by
        simp [mrvLoop, hc]
      rw [hstep] at hr
      rcases ih d m r hr with ⟨heq, hall⟩ | ⟨pre, post, hsplit, hlt, hpre, hpost⟩
      · left
        refine ⟨heq, ?_⟩
        intro u hu
        rcases List.mem_cons.mp hu with rfl | hu
        · omega
        · exact hall u hu
      · right
        refine ⟨v :: pre, post, by simp [hsplit], hlt, ?_, hpost⟩
        intro u hu
        rcases List.mem_cons.mp hu with rfl | hu
        · omega
        · exact hpre u hu

/-- **C6**: for a CSP with at least one variable, `ord_mrv` returns the
variable of smallest current-domain size among all of the CSP's variables,
the first such variable in enumeration order (every earlier variable has a
strictly larger current domain). -/
theorem ord_mrv_min (csp : CSP) (st : SState) (h : csp.vars ≠ []) :
    ∃ m pre post, ord_mrv csp st = some m ∧ csp.vars = pre ++ m :: post ∧
      (∀ u ∈ pre, (curDomain st m).length < (curDomain st u).length) ∧
      (∀ u ∈ post, (curDomain st m).length ≤ (curDomain st u).length) ∧
      (∀ u ∈ csp.vars, (curDomain st m).length ≤ (curDomain st u).length) := by
  obtain ⟨v0, rest, hv⟩ : ∃ v0 rest, csp.vars = v0 :: rest := by
    cases hvars : csp.vars with
    | nil => exact absurd hvars h
    | cons a l => exact ⟨a, l, rfl⟩
  obtain ⟨r, hr⟩ : ∃ r, mrvLoop st rest (some (curDomain st v0).length) v0 = r := ⟨_, rfl⟩
  have hord : ord_mrv csp st = some r := by
    simp [ord_mrv, hv, mrvLoop, hr]
  rcases mrvLoop_spec st rest (curDomain st v0).length v0 r hr with
    ⟨heq, hall⟩ | ⟨pre, post, hsplit, hlt, hpre, hpost⟩
  · subst heq
    refine ⟨r, [], rest, hord, by simp [hv], by simp, ?_, ?_⟩
    · intro u hu; exact hall u hu
    · intro u hu
      rw [hv] at hu
      rcases List.mem_cons.mp hu with rfl | hu
      · exact le_refl _
      · exact hall u hu
  · refine ⟨r, v0 :: pre, post, hord, by simp [hv, hsplit], ?_, hpost, ?_⟩
    · intro u hu
      rcases List.mem_cons.mp hu with rfl | hu
      · exact hlt
      · exact hpre u hu
    · intro u hu
      rw [hv, hsplit] at hu
      rcases List.mem_cons.mp hu with rfl | hu
      · exact le_of_lt hlt
      · rcases List.mem_append.mp hu with hu | hu
        · exact le_of_lt (hpre u hu)
        · rcases List.mem_cons.mp hu with rfl | hu
          · exact le_refl _
          · exact hpost u hu

/-- Concrete CSP for the C6 witness: three variables with current-domain
sizes `[3, 1, 2]`, none assigned. -/
def mrvCsp : CSP := ⟨[0, 1, 2], []⟩

/-- Concrete state for the C6 witness. -/
def mrvSt : SState := ⟨[[1, 2, 3], [4], [5, 6]], [none, none, none]⟩

/-- C6 witness: on domain sizes `[3, 1, 2]` the theorem applies and the
returned variable is the one with domain size 1. -/
theorem ord_mrv_min_witness :
    ord_mrv mrvCsp mrvSt = some 1 ∧
      ∃ m pre post, ord_mrv mrvCsp mrvSt = some m ∧ mrvCsp.vars = pre ++ m :: post ∧
        (∀ u ∈ pre, (curDomain mrvSt m).length < (curDomain mrvSt u).length) ∧
        (∀ u ∈ post, (curDomain mrvSt m).length ≤ (curDomain mrvSt u).length) ∧
        (∀ u ∈ mrvCsp.vars, (curDomain mrvSt m).length ≤ (curDomain mrvSt u).length) :=
  ⟨by decide, ord_mrv_min mrvCsp mrvSt (by decide)⟩

/-! ### C9: all_diff_constraint -/

lemma crossProd_foldl_mem (ds : List (List Int)) :
    ∀ (acc : List (List Int)) (t : List Int),
      t ∈ ds.foldl (fun acc pool => acc.flatMap fun x => pool.map fun y => x ++ [y]) acc ↔
        ∃ x ∈ acc, ∃ rest, t = x ++ rest ∧ List.Forall₂ (fun a b => a ∈ b) rest ds := by
  induction ds with
  | nil =>
    intro acc t
    simp [List.forall₂_nil_right_iff]
  | cons d ds ih =>
    intro acc t
    rw [List.foldl_cons, ih]
    constructor
    · rintro ⟨x', hx', rest', ht, hf⟩
      rw [List.mem_flatMap] at hx'
      obtain ⟨x, hx, hx'mem⟩ := hx'
      rw [List.mem_map] at hx'mem
      obtain ⟨y, hy, rfl⟩ := hx'mem
      exact ⟨x, hx, y :: rest', by simp [ht], List.Forall₂.cons hy hf⟩
    · rintro ⟨x, hx, rest, ht, hf⟩
      cases hf with
      | cons hy hf2 =>
        rename_i y rest2
        refine ⟨x ++ [y], ?_, rest2, by simp [ht], hf2⟩
        rw [List.mem_flatMap]
        exact ⟨x, hx, List.mem_map.mpr ⟨y, hy, rfl⟩⟩

lemma mem_crossProd (ds : List (List Int)) (t : List Int) :
    t ∈ crossProd ds ↔ List.Forall₂ (fun a b => a ∈ b) t ds := by
  rw [crossProd, crossProd_foldl_mem]
  simp

lemma allDiffValid_iff_pairwise (t : List Int) :
    allDiffValid t.length t = true ↔ t.Pairwise (fun a b => a ≠ b) := by
  rw [List.pairwise_iff_getElem]
  simp only [allDiffValid, List.all_eq_true, List.mem_range, List.mem_range'_1]
  constructor
  · intro h i j hi hj hij
    have h2 := h i hi j ⟨by omega, by omega⟩
    rw [List.getD_eq_getElem t 0 hi, List.getD_eq_getElem t 0 hj] at h2
    simpa using h2
  · intro h i hi j hj
    obtain ⟨hj1, hj2⟩ := hj
    have hjlen : j < t.length := by omega
    have hne := h i j hi hjlen (by omega)
    rw [List.getD_eq_getElem t 0 hi, List.getD_eq_getElem t 0 hjlen]
    simpa using hne

/-- **C9**: the satisfying tuples built by `all_diff_constraint` (as called
at model-build time by `futoshiki_csp_model_2`, where `num_vars` is the
number of domain pools) are exactly the tuples of the full cross-product of
the domains whose values are pairwise distinct: every such tuple is
included, and no tuple with a repeated value or with a value outside the
domains is included. -/
theorem all_diff_constraint_tuples (domains : List (List Int)) (scope : List Nat) (t : List Int) :
    t ∈ (all_diff_constraint scope domains domains.length).satTuples ↔
      List.Forall₂ (fun a b => a ∈ b) t domains ∧ t.Pairwise (fun a b => a ≠ b) := by
  show t ∈ all_diff_tuples domains domains.length ↔ _
  rw [all_diff_tuples, List.mem_filter]
  constructor
  · rintro ⟨hmem, hvalid⟩
    have hf := (mem_crossProd domains t).mp hmem
    have hlen : t.length = domains.length := List.Forall₂.length_eq hf
    rw [← hlen] at hvalid
    exact ⟨hf, (allDiffValid_iff_pairwise t).mp hvalid⟩
  · rintro ⟨hf, hp⟩
    have hlen : t.length = domains.length := List.Forall₂.length_eq hf
    refine ⟨(mem_crossProd domains t).mpr hf, ?_⟩
    rw [← hlen]
    exact (allDiffValid_iff_pairwise t).mpr hp

example : all_diff_tuples [[1, 2], [1, 2]] 2 = [[1, 2], [2, 1]] := by decide

/-! ### State and pruning basics -/

/-- Domains are sets: every variable's current-domain list has no
duplicates (the standing invariant of the data model). -/
def NodupState (st : SState) : Prop :=
  ∀ w : Nat, (curdomOf st w).Nodup

lemma pruneValue_assigned (st : SState) (v : Nat) (val : Int) :
    (pruneValue st v val).assigned = st.assigned := rfl

lemma getAssigned_pruneValue (st : SState) (v : Nat) (val : Int) (w : Nat) :
    getAssigned (pruneValue st v val) w = getAssigned st w := rfl

lemma curdomOf_pruneValue_ne (st : SState) (v : Nat) (val : Int) (w : Nat) (h : w ≠ v) :
    curdomOf (pruneValue st v val) w = curdomOf st w := by
  simp only [curdomOf, pruneValue, List.getD_eq_getElem?_getD]
  rw [List.getElem?_set_ne (Ne.symm h)]

lemma curdomOf_pruneValue_self (st : SState) (v : Nat) (val : Int) :
    curdomOf (pruneValue st v val) v = (curdomOf st v).erase val := by
  by_cases h : v < st.curdom.length
  · simp only [curdomOf, pruneValue, List.getD_eq_getElem?_getD]
    rw [List.getElem?_set_self h]
    rfl
  · push_neg at h
    have h2 : curdomOf st v = [] := List.getD_eq_default _ _ h
    have h1 : st.curdom.set v ((curdomOf st v).erase val) = st.curdom :=
      List.set_eq_of_length_le h
    calc curdomOf (pruneValue st v val) v
        = (st.curdom.set v ((curdomOf st v).erase val)).getD v [] := rfl
      _ = st.curdom.getD v [] := by rw [h1]
      _ = curdomOf st v := rfl
      _ = (curdomOf st v).erase val := by rw [h2]; rfl

lemma mem_unasgnVars {st : SState} {c : Constraint} {v : Nat} :
    v ∈ unasgnVars st c ↔ v ∈ c.scope ∧ getAssigned st v = none := by
  simp only [unasgnVars, List.mem_filter, isAssigned, Bool.not_eq_eq_eq_not, Bool.not_true]
  constructor
  · rintro ⟨h1, h2⟩
    exact ⟨h1, Option.not_isSome_iff_eq_none.mp (by simp [h2])⟩
  · rintro ⟨h1, h2⟩
    exact ⟨h1, by simp [h2]⟩

lemma curDomain_of_unassigned {st : SState} {v : Nat} (h : getAssigned st v = none) :
    curDomain st v = curdomOf st v := by
  simp [curDomain, h]

lemma pruneUnsupported_cons (c : Constraint) (v : Nat) (st : SState) (val : Int)
    (rest : List Int) :
    pruneUnsupported c v st (val :: rest) =
      if hasSupport st c v val then pruneUnsupported c v st rest
      else ((pruneUnsupported c v (pruneValue st v val) rest).1,
        (v, val) :: (pruneUnsupported c v (pruneValue st v val) rest).2) := rfl

lemma pruneUnsupported_assigned (c : Constraint) (v : Nat) :
    ∀ (vals : List Int) (st st' : SState) (ps : List (Nat × Int)),
      pruneUnsupported c v st vals = (st', ps) → st'.assigned = st.assigned := by
  intro vals
  induction vals with
  | nil => intro st st' ps h; cases h; rfl
  | cons val rest ih =>
    intro st st' ps h
    rw [pruneUnsupported_cons] at h
    by_cases hs : hasSupport st c v val = true
    · rw [if_pos hs] at h
      exact ih st st' ps h
    · rw [if_neg hs] at h
      rcases hrec : pruneUnsupported c v (pruneValue st v val) rest with ⟨st2, ps2⟩
      rw [hrec] at h
      cases h
      have := ih (pruneValue st v val) st2 ps2 hrec
      rw [this]
      rfl

lemma pruneUnsupported_vars (c : Constraint) (v : Nat) :
    ∀ (vals : List Int) (st st' : SState) (ps : List (Nat × Int)),
      pruneUnsupported c v st vals = (st', ps) →
      ∀ p ∈ ps, p.1 = v ∧ p.2 ∈ vals := by
  intro vals
  induction vals with
  | nil => intro st st' ps h; cases h; intro p hp; cases hp
  | cons val rest ih =>
    intro st st' ps h
    rw [pruneUnsupported_cons] at h
    by_cases hs : hasSupport st c v val = true
    · rw [if_pos hs] at h
      intro p hp
      obtain ⟨h1, h2⟩ := ih st st' ps h p hp
      exact ⟨h1, List.mem_cons_of_mem _ h2⟩
    · rw [if_neg hs] at h
      rcases hrec : pruneUnsupported c v (pruneValue st v val) rest with ⟨st2, ps2⟩
      rw [hrec] at h
      cases h
      intro p hp
      rcases List.mem_cons.mp hp with rfl | hp
      · exact ⟨rfl, List.mem_cons_self _ _⟩
      · obtain ⟨h1, h2⟩ := ih (pruneValue st v val) st2 ps2 hrec p hp
        exact ⟨h1, List.mem_cons_of_mem _ h2⟩

lemma pruneUnsupported_untouched (c : Constraint) (v : Nat) :
    ∀ (vals : List Int) (st st' : SState) (ps : List (Nat × Int)),
      pruneUnsupported c v st vals = (st', ps) →
      ∀ w : Nat, (∀ x : Int, (w, x) ∉ ps) → curdomOf st' w = curdomOf st w := by
  intro vals
  induction vals with
  | nil => intro st st' ps h; cases h; intro w _; rfl
  | cons val rest ih =>
    intro st st' ps h
    rw [pruneUnsupported_cons] at h
    by_cases hs : hasSupport st c v val = true
    · rw [if_pos hs] at h
      exact ih st st' ps h
    · rw [if_neg hs] at h
      rcases hrec : pruneUnsupported c v (pruneValue st v val) rest with ⟨st2, ps2⟩
      rw [hrec] at h
      cases h
      intro w hw
      have hwv : w ≠ v := by
        intro heq
        exact hw val (by rw [heq]; exact List.mem_cons_self _ _)
      have h1 : curdomOf st2 w = curdomOf (pruneValue st v val) w :=
        ih (pruneValue st v val) st2 ps2 hrec w fun x hx => hw x (List.mem_cons_of_mem _ hx)
      rw [h1, curdomOf_pruneValue_ne st v val w hwv]

lemma pruneUnsupported_length_le (c : Constraint) (v : Nat) :
    ∀ (vals : List Int) (st st' : SState) (ps : List (Nat × Int)),
      pruneUnsupported c v st vals = (st', ps) →
      ∀ w : Nat, (curdomOf st' w).length ≤ (curdomOf st w).length := by
  intro vals
  induction vals with
  | nil => intro st st' ps h; cases h; intro w; exact le_refl _
  | cons val rest ih =>
    intro st st' ps h
    rw [pruneUnsupported_cons] at h
    by_cases hs : hasSupport st c v val = true
    · rw [if_pos hs] at h
      exact ih st st' ps h
    · rw [if_neg hs] at h
      rcases hrec : pruneUnsupported c v (pruneValue st v val) rest with ⟨st2, ps2⟩
      rw [hrec] at h
      cases h
      intro w
      refine le_trans (ih (pruneValue st v val) st2 ps2 hrec w) ?_
      by_cases hwv : w = v
      · subst hwv
        rw [curdomOf_pruneValue_self]
        exact (List.erase_sublist _ _).length_le
      · rw [curdomOf_pruneValue_ne st v val w hwv]

lemma pruneUnsupported_nil_prunes (c : Constraint) (v : Nat) :
    ∀ (vals : List Int) (st st' : SState),
      pruneUnsupported c v st vals = (st', []) →
      st' = st ∧ ∀ val ∈ vals, hasSupport st c v val = true := by
  intro vals
  induction vals with
  | nil => intro st st' h; cases h; exact ⟨rfl, by simp⟩
  | cons val rest ih =>
    intro st st' h
    rw [pruneUnsupported_cons] at h
    by_cases hs : hasSupport st c v val = true
    · rw [if_pos hs] at h
      obtain ⟨h1, h2⟩ := ih st st' h
      refine ⟨h1, ?_⟩
      intro x hx
      rcases List.mem_cons.mp hx with rfl | hx
      · exact hs
      · exact h2 x hx
    · rw [if_neg hs] at h
      rcases hrec : pruneUnsupported c v (pruneValue st v val) rest with ⟨st2, ps2⟩
      rw [hrec] at h
      cases h

lemma pruneUnsupported_strict (c : Constraint) (v : Nat) :
    ∀ (vals : List Int) (st st' : SState) (ps : List (Nat × Int)),
      pruneUnsupported c v st vals = (st', ps) →
      (∀ x ∈ vals, x ∈ curdomOf st v) → ps ≠ [] →
      (curdomOf st' v).length < (curdomOf st v).length := by
  intro vals
  induction vals with
  | nil => intro st st' ps h _ hne; cases h; exact absurd rfl hne
  | cons val rest ih =>
    intro st st' ps h hval hne
    rw [pruneUnsupported_cons] at h
    by_cases hs : hasSupport st c v val = true
    · rw [if_pos hs] at h
      exact ih st st' ps h (fun x hx => hval x (List.mem_cons_of_mem _ hx)) hne
    · rw [if_neg hs] at h
      rcases hrec : pruneUnsupported c v (pruneValue st v val) rest with ⟨st2, ps2⟩
      rw [hrec] at h
      cases h
      have hmem : val ∈ curdomOf st v := hval val (List.mem_cons_self _ _)
      have h1 : (curdomOf (pruneValue st v val) v).length < (curdomOf st v).length := by
        rw [curdomOf_pruneValue_self, List.length_erase_of_mem hmem]
        have : 0 < (curdomOf st v).length := List.length_pos_of_mem hmem
        omega
      exact lt_of_le_of_lt (pruneUnsupported_length_le c v rest _ _ _ hrec v) h1

lemma pruneUnsupported_filter (c : Constraint) (v : Nat) :
    ∀ (vals : List Int) (st st' : SState) (ps : List (Nat × Int)),
      pruneUnsupported c v st vals = (st', ps) →
      (∀ x ∈ vals, x ∈ curdomOf st v) → vals.Nodup → (curdomOf st v).Nodup →
      curdomOf st' v = (curdomOf st v).filter (fun x => decide ((v, x) ∉ ps)) ∧ ps.Nodup := by
  intro vals
  induction vals with
  | nil =>
    intro st st' ps h _ _ _
    cases h
    exact ⟨by simp, List.nodup_nil⟩
  | cons val rest ih =>
    intro st st' ps h hval hnv hnd
    rw [pruneUnsupported_cons] at h
    by_cases hs : hasSupport st c v val = true
    · rw [if_pos hs] at h
      exact ih st st' ps h (fun x hx => hval x (List.mem_cons_of_mem _ hx))
        (List.nodup_cons.mp hnv).2 hnd
    · rw [if_neg hs] at h
      rcases hrec : pruneUnsupported c v (pruneValue st v val) rest with ⟨st2, ps2⟩
      rw [hrec] at h
      cases h
      have hvalmem : val ∈ curdomOf st v := hval val (List.mem_cons_self _ _)
      have hc1 : curdomOf (pruneValue st v val) v = (curdomOf st v).erase val :=
        curdomOf_pruneValue_self st v val
      have hval2 : ∀ x ∈ rest, x ∈ curdomOf (pruneValue st v val) v := by
        intro x hx
        rw [hc1]
        have hxne : x ≠ val := by
          intro heq; subst heq; exact (List.nodup_cons.mp hnv).1 hx
        exact (List.mem_erase_of_ne hxne).mpr (hval x (List.mem_cons_of_mem _ hx))
      have hnd2 : (curdomOf (pruneValue st v val) v).Nodup := by
        rw [hc1]; exact hnd.erase val
      obtain ⟨hfil, hnodup⟩ :=
        ih (pruneValue st v val) st2 ps2 hrec hval2 (List.nodup_cons.mp hnv).2 hnd2
      constructor
      · rw [hfil, hc1, hnd.erase_eq_filter val, List.filter_filter]
        apply List.filter_congr
        intro x _
        by_cases h1 : (v, x) ∈ ps2 <;> by_cases h2 : x = val <;>
          simp [h1, h2, List.mem_cons]
      · refine List.nodup_cons.mpr ⟨?_, hnodup⟩
        intro hmem
        have := pruneUnsupported_vars c v rest _ _ _ hrec (v, val) hmem
        exact (List.nodup_cons.mp hnv).1 this.2

/-- The exact relation between a propagation call's input state, output
state and returned prune list: assignments untouched, every current domain
shrunk by exactly the recorded pairs, every recorded pair previously
present, and no pair recorded twice. -/
def PruneExact (st st' : SState) (ps : List (Nat × Int)) : Prop :=
  st'.assigned = st.assigned ∧
  (∀ w : Nat, curdomOf st' w = (curdomOf st w).filter fun x => decide ((w, x) ∉ ps)) ∧
  (∀ w x, (w, x) ∈ ps → x ∈ curdomOf st w) ∧
  ps.Nodup

lemma pruneExact_refl (st : SState) : PruneExact st st [] := by
  refine ⟨rfl, fun w => ?_, by simp, List.nodup_nil⟩
  rw [List.filter_eq_self.mpr]
  intro a _
  simp

lemma pruneExact_trans {st st1 st2 : SState} {ps1 ps2 : List (Nat × Int)}
    (h1 : PruneExact st st1 ps1) (h2 : PruneExact st1 st2 ps2) :
    PruneExact st st2 (ps1 ++ ps2) := by
  obtain ⟨ha1, hf1, hp1, hn1⟩ := h1
  obtain ⟨ha2, hf2, hp2, hn2⟩ := h2
  refine ⟨ha2.trans ha1, fun w => ?_, fun w x hx => ?_, ?_⟩
  · rw [hf2 w, hf1 w, List.filter_filter]
    apply List.filter_congr
    intro x _
    by_cases q1 : (w, x) ∈ ps1 <;> by_cases q2 : (w, x) ∈ ps2 <;>
      simp [q1, q2, List.mem_append]
  · rcases List.mem_append.mp hx with hx | hx
    · exact hp1 w x hx
    · have := hp2 w x hx
      rw [hf1 w] at this
      exact (List.mem_filter.mp this).1
  · refine hn1.append hn2 ?_
    intro p hp1' hp2'
    obtain ⟨w, x⟩ := p
    have hmem := hp2 w x hp2'
    rw [hf1 w] at hmem
    have := (List.mem_filter.mp hmem).2
    simp only [decide_eq_true_eq] at this
    exact this hp1'

lemma pruneExact_nodupState {st st' : SState} {ps : List (Nat × Int)}
    (h : PruneExact st st' ps) (hnd : NodupState st) : NodupState st' := by
  intro w
  rw [h.2.1 w]
  exact (hnd w).filter _

lemma pruneExact_getAssigned {st st' : SState} {ps : List (Nat × Int)}
    (h : PruneExact st st' ps) (w : Nat) : getAssigned st' w = getAssigned st w := by
  simp [getAssigned, h.1]

lemma pruneUnsupported_pruneExact {c : Constraint} {v : Nat} {st st' : SState}
    {ps : List (Nat × Int)} (h : pruneUnsupported c v st (curDomain st v) = (st', ps))
    (hna : getAssigned st v = none) (hnd : NodupState st) : PruneExact st st' ps := by
  rw [curDomain_of_unassigned hna] at h
  have hvars := pruneUnsupported_vars c v _ _ _ _ h
  obtain ⟨hfil, hnodup⟩ :=
    pruneUnsupported_filter c v _ _ _ _ h (fun x hx => hx) (hnd v) (hnd v)
  refine ⟨pruneUnsupported_assigned c v _ _ _ _ h, fun w => ?_, fun w x hx => ?_, hnodup⟩
  · by_cases hwv : w = v
    · subst hwv; exact hfil
    · rw [pruneUnsupported_untouched c v _ _ _ _ h w ?_, List.filter_eq_self.mpr ?_]
      · intro x hx
        simp only [decide_eq_true_eq]
        intro hmem
        exact hwv ((hvars (w, x) hmem).1)
      · intro hx hmem
        exact hwv ((hvars (w, hx) hmem).1)
  · have := hvars (w, x) hx
    obtain ⟨h1, h2⟩ := this
    subst h1
    exact h2

lemma gacVarsLoop_cons (csp : CSP) (c : Constraint) (st : SState) (v : Nat) (rest : List Nat) :
    gacVarsLoop csp c st (v :: rest) =
      if (curDomain (pruneUnsupported c v st (curDomain st v)).1 v).length == 0 then
        ((pruneUnsupported c v st (curDomain st v)).1,
          (pruneUnsupported c v st (curDomain st v)).2, false, [])
      else
        ((gacVarsLoop csp c (pruneUnsupported c v st (curDomain st v)).1 rest).1,
          (pruneUnsupported c v st (curDomain st v)).2 ++
            (gacVarsLoop csp c (pruneUnsupported c v st (curDomain st v)).1 rest).2.1,
          (gacVarsLoop csp c (pruneUnsupported c v st (curDomain st v)).1 rest).2.2.1,
          (if (pruneUnsupported c v st (curDomain st v)).2.isEmpty then []
            else getConsWithVar csp v) ++
            (gacVarsLoop csp c (pruneUnsupported c v st (curDomain st v)).1 rest).2.2.2) := rfl

lemma gacVarsLoop_pruneExact (csp : CSP) (c : Constraint) :
    ∀ (vs : List Nat) (st st' : SState) (ps : List (Nat × Int)) (ok : Bool)
      (app : List Constraint),
      gacVarsLoop csp c st vs = (st', ps, ok, app) →
      NodupState st → (∀ v ∈ vs, getAssigned st v = none) →
      PruneExact st st' ps := by
  intro vs
  induction vs with
  | nil => intro st st' ps ok app h _ _; cases h; exact pruneExact_refl st
  | cons v rest ih =>
    intro st st' ps ok app h hnd hun
    rw [gacVarsLoop_cons] at h
    rcases hr1 : pruneUnsupported c v st (curDomain st v) with ⟨st1, ps1⟩
    rw [hr1] at h
    have hpe1 : PruneExact st st1 ps1 :=
      pruneUnsupported_pruneExact hr1 (hun v (List.mem_cons_self _ _)) hnd
    by_cases hwipe : (curDomain st1 v).length = 0
    · rw [if_pos (by simpa using hwipe)] at h
      cases h
      exact hpe1
    · rw [if_neg (by simpa using hwipe)] at h
      rcases hr2 : gacVarsLoop csp c st1 rest with ⟨st2, ps2, ok2, app2⟩
      rw [hr2] at h
      cases h
      refine pruneExact_trans hpe1
        (ih st1 st2 ps2 ok2 app2 hr2 (pruneExact_nodupState hpe1 hnd) ?_)
      intro w hw
      rw [pruneExact_getAssigned hpe1 w]
      exact hun w (List.mem_cons_of_mem _ hw)

lemma gacVarsLoop_assigned (csp : CSP) (c : Constraint) :
    ∀ (vs : List Nat) (st st' : SState) (ps : List (Nat × Int)) (ok : Bool)
      (app : List Constraint),
      gacVarsLoop csp c st vs = (st', ps, ok, app) → st'.assigned = st.assigned := by
  intro vs
  induction vs with
  | nil => intro st st' ps ok app h; cases h; rfl
  | cons v rest ih =>
    intro st st' ps ok app h
    rw [gacVarsLoop_cons] at h
    rcases hr1 : pruneUnsupported c v st (curDomain st v) with ⟨st1, ps1⟩
    rw [hr1] at h
    have ha1 : st1.assigned = st.assigned := pruneUnsupported_assigned c v _ _ _ _ hr1
    by_cases hwipe : (curDomain st1 v).length = 0
    · rw [if_pos (by simpa using hwipe)] at h
      cases h
      exact ha1
    · rw [if_neg (by simpa using hwipe)] at h
      rcases hr2 : gacVarsLoop csp c st1 rest with ⟨st2, ps2, ok2, app2⟩
      rw [hr2] at h
      cases h
      exact (ih st1 st2 ps2 ok2 app2 hr2).trans ha1

lemma gacVarsLoop_length_le (csp : CSP) (c : Constraint) :
    ∀ (vs : List Nat) (st st' : SState) (ps : List (Nat × Int)) (ok : Bool)
      (app : List Constraint),
      gacVarsLoop csp c st vs = (st', ps, ok, app) →
      ∀ w : Nat, (curdomOf st' w).length ≤ (curdomOf st w).length := by
  intro vs
  induction vs with
  | nil => intro st st' ps ok app h; cases h; intro w; exact le_refl _
  | cons v rest ih =>
    intro st st' ps ok app h
    rw [gacVarsLoop_cons] at h
    rcases hr1 : pruneUnsupported c v st (curDomain st v) with ⟨st1, ps1⟩
    rw [hr1] at h
    have hl1 := pruneUnsupported_length_le c v _ _ _ _ hr1
    by_cases hwipe : (curDomain st1 v).length = 0
    · rw [if_pos (by simpa using hwipe)] at h
      cases h
      exact hl1
    · rw [if_neg (by simpa using hwipe)] at h
      rcases hr2 : gacVarsLoop csp c st1 rest with ⟨st2, ps2, ok2, app2⟩
      rw [hr2] at h
      cases h
      intro w
      exact le_trans (ih st1 st2 ps2 ok2 app2 hr2 w) (hl1 w)

lemma gacVarsLoop_vars (csp : CSP) (c : Constraint) :
    ∀ (vs : List Nat) (st st' : SState) (ps : List (Nat × Int)) (ok : Bool)
      (app : List Constraint),
      gacVarsLoop csp c st vs = (st', ps, ok, app) →
      ∀ p ∈ ps, p.1 ∈ vs := by
  intro vs
  induction vs with
  | nil => intro st st' ps ok app h; cases h; intro p hp; cases hp
  | cons v rest ih =>
    intro st st' ps ok app h
    rw [gacVarsLoop_cons] at h
    rcases hr1 : pruneUnsupported c v st (curDomain st v) with ⟨st1, ps1⟩
    rw [hr1] at h
    have hv1 := pruneUnsupported_vars c v _ _ _ _ hr1
    by_cases hwipe : (curDomain st1 v).length = 0
    · rw [if_pos (by simpa using hwipe)] at h
      cases h
      intro p hp
      rw [(hv1 p hp).1]
      exact List.mem_cons_self _ _
    · rw [if_neg (by simpa using hwipe)] at h
      rcases hr2 : gacVarsLoop csp c st1 rest with ⟨st2, ps2, ok2, app2⟩
      rw [hr2] at h
      cases h
      intro p hp
      rcases List.mem_append.mp hp with hp | hp
      · rw [(hv1 p hp).1]
        exact List.mem_cons_self _ _
      · exact List.mem_cons_of_mem _ (ih st1 st2 ps2 ok2 app2 hr2 p hp)

lemma gacVarsLoop_untouched (csp : CSP) (c : Constraint) :
    ∀ (vs : List Nat) (st st' : SState) (ps : List (Nat × Int)) (ok : Bool)
      (app : List Constraint),
      gacVarsLoop csp c st vs = (st', ps, ok, app) →
      ∀ w : Nat, (∀ x : Int, (w, x) ∉ ps) → curdomOf st' w = curdomOf st w := by
  intro vs
  induction vs with
  | nil => intro st st' ps ok app h; cases h; intro w _; rfl
  | cons v rest ih =>
    intro st st' ps ok app h
    rw [gacVarsLoop_cons] at h
    rcases hr1 : pruneUnsupported c v st (curDomain st v) with ⟨st1, ps1⟩
    rw [hr1] at h
    by_cases hwipe : (curDomain st1 v).length = 0
    · rw [if_pos (by simpa using hwipe)] at h
      cases h
      exact pruneUnsupported_untouched c v _ _ _ _ hr1
    · rw [if_neg (by simpa using hwipe)] at h
      rcases hr2 : gacVarsLoop csp c st1 rest with ⟨st2, ps2, ok2, app2⟩
      rw [hr2] at h
      cases h
      intro w hw
      have e1 : curdomOf st1 w = curdomOf st w :=
        pruneUnsupported_untouched c v _ _ _ _ hr1 w fun x hx =>
          hw x (List.mem_append.mpr (Or.inl hx))
      have e2 : curdomOf st2 w = curdomOf st1 w :=
        ih st1 st2 ps2 ok2 app2 hr2 w fun x hx =>
          hw x (List.mem_append.mpr (Or.inr hx))
      exact e2.trans e1

lemma gacVarsLoop_nil_prunes (csp : CSP) (c : Constraint) :
    ∀ (vs : List Nat) (st st' : SState) (ok : Bool) (app : List Constraint),
      gacVarsLoop csp c st vs = (st', [], ok, app) →
      st' = st ∧ app = [] := by
  intro vs
  induction vs with
  | nil => intro st st' ok app h; cases h; exact ⟨rfl, rfl⟩
  | cons v rest ih =>
    intro st st' ok app h
    rw [gacVarsLoop_cons] at h
    rcases hr1 : pruneUnsupported c v st (curDomain st v) with ⟨st1, ps1⟩
    rw [hr1] at h
    by_cases hwipe : (curDomain st1 v).length = 0
    · rw [if_pos (by simpa using hwipe)] at h
      cases h
      exact ⟨(pruneUnsupported_nil_prunes c v _ _ _ hr1).1, rfl⟩
    · rw [if_neg (by simpa using hwipe)] at h
      rcases hr2 : gacVarsLoop csp c st1 rest with ⟨st2, ps2, ok2, app2⟩
      rw [hr2] at h
      have hps : ps1 ++ ps2 = [] := congrArg (fun r => r.2.1) h
      have hps1 : ps1 = [] := List.append_eq_nil.mp hps |>.1
      have hps2 : ps2 = [] := List.append_eq_nil.mp hps |>.2
      subst hps1
      have hst1 : st1 = st := (pruneUnsupported_nil_prunes c v _ _ _ hr1).1
      subst hps2
      obtain ⟨hst2, happ2⟩ := ih st1 st2 ok2 app2 hr2
      cases h
      subst hst1 hst2 happ2
      exact ⟨rfl, by simp⟩

lemma gacVarsLoop_nil_support (csp : CSP) (c : Constraint) :
    ∀ (vs : List Nat) (st st' : SState) (app : List Constraint),
      gacVarsLoop csp c st vs = (st', [], true, app) →
      ∀ v ∈ vs, ∀ val ∈ curDomain st v, hasSupport st c v val = true := by
  intro vs
  induction vs with
  | nil => intro st st' app h v hv; cases hv
  | cons v rest ih =>
    intro st st' app h
    rw [gacVarsLoop_cons] at h
    rcases hr1 : pruneUnsupported c v st (curDomain st v) with ⟨st1, ps1⟩
    rw [hr1] at h
    by_cases hwipe : (curDomain st1 v).length = 0
    · rw [if_pos (by simpa using hwipe)] at h
      cases h
    · rw [if_neg (by simpa using hwipe)] at h
      rcases hr2 : gacVarsLoop csp c st1 rest with ⟨st2, ps2, ok2, app2⟩
      rw [hr2] at h
      have hps : ps1 ++ ps2 = [] := congrArg (fun r => r.2.1) h
      have hps1 : ps1 = [] := List.append_eq_nil.mp hps |>.1
      have hps2 : ps2 = [] := List.append_eq_nil.mp hps |>.2
      have hok2 : ok2 = true := congrArg (fun r => r.2.2.1) h
      subst hps1
      obtain ⟨hst1, hsup1⟩ := pruneUnsupported_nil_prunes c v _ _ _ hr1
      subst hst1
      intro w hw
      rcases List.mem_cons.mp hw with rfl | hw
      · exact hsup1
      · exact ih st1 st2 app2 (by rw [hr2, hps2, hok2]) w hw

lemma gacVarsLoop_app_sub (csp : CSP) (c : Constraint) :
    ∀ (vs : List Nat) (st st' : SState) (ps : List (Nat × Int)) (ok : Bool)
      (app : List Constraint),
      gacVarsLoop csp c st vs = (st', ps, ok, app) →
      ∀ c' ∈ app, c' ∈ csp.cons := by
  intro vs
  induction vs with
  | nil => intro st st' ps ok app h; cases h; intro c' hc'; cases hc'
  | cons v rest ih =>
    intro st st' ps ok app h
    rw [gacVarsLoop_cons] at h
    rcases hr1 : pruneUnsupported c v st (curDomain st v) with ⟨st1, ps1⟩
    rw [hr1] at h
    by_cases hwipe : (curDomain st1 v).length = 0
    · rw [if_pos (by simpa using hwipe)] at h
      cases h
      intro c' hc'; cases hc'
    · rw [if_neg (by simpa using hwipe)] at h
      rcases hr2 : gacVarsLoop csp c st1 rest with ⟨st2, ps2, ok2, app2⟩
      rw [hr2] at h
      cases h
      intro c' hc'
      rcases List.mem_append.mp hc' with hc' | hc'
      · by_cases hemp : ps1.isEmpty = true
        · rw [if_pos hemp] at hc'; cases hc'
        · rw [if_neg hemp] at hc'
          exact (mem_getConsWithVar.mp hc').1
      · exact ih st1 st2 ps2 ok2 app2 hr2 c' hc'

lemma gacVarsLoop_ps_app (csp : CSP) (c : Constraint) :
    ∀ (vs : List Nat) (st st' : SState) (ps : List (Nat × Int)) (app : List Constraint),
      gacVarsLoop csp c st vs = (st', ps, true, app) →
      ∀ w x, (w, x) ∈ ps → ∀ c' ∈ getConsWithVar csp w, c' ∈ app := by
  intro vs
  induction vs with
  | nil => intro st st' ps app h w x hp; cases h; cases hp
  | cons v rest ih =>
    intro st st' ps app h
    rw [gacVarsLoop_cons] at h
    rcases hr1 : pruneUnsupported c v st (curDomain st v) with ⟨st1, ps1⟩
    rw [hr1] at h
    by_cases hwipe : (curDomain st1 v).length = 0
    · rw [if_pos (by simpa using hwipe)] at h
      cases h
    · rw [if_neg (by simpa using hwipe)] at h
      rcases hr2 : gacVarsLoop csp c st1 rest with ⟨st2, ps2, ok2, app2⟩
      rw [hr2] at h
      have hok2 : ok2 = true := congrArg (fun r => r.2.2.1) h
      subst hok2
      cases h
      intro w x hp c' hc'
      rcases List.mem_append.mp hp with hp | hp
      · have hw : w = v := (pruneUnsupported_vars c v _ _ _ _ hr1 (w, x) hp).1
        subst hw
        have hne : ps1.isEmpty = false := by
          cases ps1 with
          | nil => cases hp
          | cons a l => rfl
        rw [hne] at *
        refine List.mem_append.mpr (Or.inl ?_)
        simpa using hc'
      · exact List.mem_append.mpr (Or.inr (ih st1 st2 ps2 app2 hr2 w x hp c' hc'))

lemma gacVarsLoop_strict (csp : CSP) (c : Constraint) :
    ∀ (vs : List Nat) (st st' : SState) (ps : List (Nat × Int)) (ok : Bool)
      (app : List Constraint),
      gacVarsLoop csp c st vs = (st', ps, ok, app) →
      (∀ v ∈ vs, getAssigned st v = none) → ps ≠ [] →
      ∃ w ∈ vs, (curdomOf st' w).length < (curdomOf st w).length := by
  intro vs
  induction vs with
  | nil => intro st st' ps ok app h _ hne; cases h; exact absurd rfl hne
  | cons v rest ih =>
    intro st st' ps ok app h hun hne
    rw [gacVarsLoop_cons] at h
    rcases hr1 : pruneUnsupported c v st (curDomain st v) with ⟨st1, ps1⟩
    rw [hr1] at h
    have hsnap : curDomain st v = curdomOf st v :=
      curDomain_of_unassigned (hun v (List.mem_cons_self _ _))
    by_cases hwipe : (curDomain st1 v).length = 0
    · rw [if_pos (by simpa using hwipe)] at h
      cases h
      refine ⟨v, List.mem_cons_self _ _, ?_⟩
      refine pruneUnsupported_strict c v _ _ _ _ hr1 ?_ hne
      rw [hsnap]
      exact fun x hx => hx
    · rw [if_neg (by simpa using hwipe)] at h
      rcases hr2 : gacVarsLoop csp c st1 rest with ⟨st2, ps2, ok2, app2⟩
      rw [hr2] at h
      cases h
      by_cases hps1 : ps1 = []
      · subst hps1
        have hst1 : st1 = st := (pruneUnsupported_nil_prunes c v _ _ _ hr1).1
        subst hst1
        have hps2 : ps2 ≠ [] := by simpa using hne
        obtain ⟨w, hw, hlt⟩ := ih st1 st2 ps2 ok2 app2 hr2
          (fun u hu => hun u (List.mem_cons_of_mem _ hu)) hps2
        exact ⟨w, List.mem_cons_of_mem _ hw, hlt⟩
      · refine ⟨v, List.mem_cons_self _ _, ?_⟩
        have h1 : (curdomOf st1 v).length < (curdomOf st v).length := by
          refine pruneUnsupported_strict c v _ _ _ _ hr1 ?_ hps1
          rw [hsnap]
          exact fun x hx => hx
        exact lt_of_le_of_lt (gacVarsLoop_length_le csp c rest st1 st2 ps2 ok2 app2 hr2 v) h1

lemma list_any_congr {α : Type} {f g : α → Bool} :
    ∀ (l : List α), (∀ x ∈ l, f x = g x) → l.any f = l.any g := by
  intro l
  induction l with
  | nil => intro _; rfl
  | cons a l ih =>
    intro h
    simp only [List.any_cons]
    rw [h a (List.mem_cons_self _ _), ih fun x hx => h x (List.mem_cons_of_mem _ hx)]

lemma getAssigned_congr {st1 st2 : SState} (hass : st1.assigned = st2.assigned) (w : Nat) :
    getAssigned st1 w = getAssigned st2 w := by
  simp [getAssigned, hass]

lemma curDomain_congr {st1 st2 : SState} (hass : st1.assigned = st2.assigned) {w : Nat}
    (hcur : curdomOf st1 w = curdomOf st2 w) : curDomain st1 w = curDomain st2 w := by
  unfold curDomain
  rw [getAssigned_congr hass]
  cases getAssigned st2 w with
  | some x => rfl
  | none => exact hcur

lemma suppAux_congr {st1 st2 : SState} (hass : st1.assigned = st2.assigned) :
    ∀ (ws : List Nat) (xs : List Int) (k i : Nat),
      (∀ w ∈ ws, curdomOf st1 w = curdomOf st2 w) →
      suppAux st1 k i ws xs = suppAux st2 k i ws xs := by
  intro ws
  induction ws with
  | nil => intro xs k i _; cases xs <;> rfl
  | cons w ws ih =>
    intro xs k i hcur
    cases xs with
    | nil => rfl
    | cons x xs =>
      have hd : curDomain st1 w = curDomain st2 w :=
        curDomain_congr hass (hcur w (List.mem_cons_self _ _))
      simp only [suppAux]
      rw [hd, ih xs k (i + 1) fun u hu => hcur u (List.mem_cons_of_mem _ hu)]

lemma hasSupport_congr {st1 st2 : SState} (c : Constraint)
    (hass : st1.assigned = st2.assigned)
    (hcur : ∀ w ∈ c.scope, curdomOf st1 w = curdomOf st2 w) (v : Nat) (val : Int) :
    hasSupport st1 c v val = hasSupport st2 c v val := by
  unfold hasSupport
  apply list_any_congr
  intro t _
  rw [suppAux_congr hass c.scope t (c.scope.indexOf v) 0 hcur]

/-- The GAC fixpoint condition for one constraint: every value remaining in
the current domain of every unassigned scope variable has support. -/
def gacOK (st : SState) (c : Constraint) : Prop :=
  ∀ v ∈ c.scope, getAssigned st v = none →
    ∀ val ∈ curDomain st v, hasSupport st c v val = true

lemma gacOK_congr {st1 st2 : SState} (c : Constraint)
    (hass : st1.assigned = st2.assigned)
    (hcur : ∀ w ∈ c.scope, curdomOf st1 w = curdomOf st2 w) :
    gacOK st1 c ↔ gacOK st2 c := by
  unfold gacOK
  constructor
  · intro h v hv hna val hval
    rw [← hasSupport_congr c hass hcur v val]
    refine h v hv ?_ val ?_
    · rw [getAssigned_congr hass]; exact hna
    · rw [curDomain_congr hass (hcur v hv)]; exact hval
  · intro h v hv hna val hval
    rw [hasSupport_congr c hass hcur v val]
    refine h v hv ?_ val ?_
    · rw [← getAssigned_congr hass]; exact hna
    · rw [← curDomain_congr hass (hcur v hv)]; exact hval

lemma gacLoopF_nil (csp : CSP) (fuel : Nat) (st : SState) :
    gacLoopF csp (fuel + 1) st [] = some (true, [], st) := rfl

lemma gacLoopF_cons (csp : CSP) (fuel : Nat) (st : SState) (c : Constraint)
    (rest : List Constraint) :
    gacLoopF csp (fuel + 1) st (c :: rest) =
      if (gacProcessCons csp st c).2.2.1 then
        match gacLoopF csp fuel (gacProcessCons csp st c).1
            (rest ++ (gacProcessCons csp st c).2.2.2) with
        | none => none
        | some (ok2, ps2, st2) => some (ok2, (gacProcessCons csp st c).2.1 ++ ps2, st2)
      else some (false, (gacProcessCons csp st c).2.1, (gacProcessCons csp st c).1) := rfl

lemma gacLoopF_pruneExact (csp : CSP) :
    ∀ (fuel : Nat) (st : SState) (queue : List Constraint) (ok : Bool)
      (ps : List (Nat × Int)) (st' : SState),
      gacLoopF csp fuel st queue = some (ok, ps, st') → NodupState st →
      PruneExact st st' ps := by
  intro fuel
  induction fuel with
  | zero => intro st queue ok ps st' h; cases h
  | succ fuel ih =>
    intro st queue ok ps st' h hnd
    cases queue with
    | nil =>
      have h2 : (some (true, ([] : List (Nat × Int)), st) : Option _) = some (ok, ps, st') := h
      cases h2
      exact pruneExact_refl st
    | cons c0 rest =>
      rw [gacLoopF_cons] at h
      rcases hr : gacProcessCons csp st c0 with ⟨st1, ps1, ok1, app1⟩
      rw [hr] at h
      have hr' : gacVarsLoop csp c0 st (unasgnVars st c0) = (st1, ps1, ok1, app1) := hr
      have hpe1 : PruneExact st st1 ps1 :=
        gacVarsLoop_pruneExact csp c0 _ st st1 ps1 ok1 app1 hr' hnd
          fun v hv => (mem_unasgnVars.mp hv).2
      cases ok1 with
      | false =>
        rw [if_neg (by simp)] at h
        cases h
        exact hpe1
      | true =>
        rw [if_pos rfl] at h
        rcases h2 : gacLoopF csp fuel st1 (rest ++ app1) with _ | ⟨ok2, ps2, st2⟩
        · rw [h2] at h; cases h
        · rw [h2] at h
          cases h
          exact pruneExact_trans hpe1
            (ih st1 (rest ++ app1) _ _ _ h2 (pruneExact_nodupState hpe1 hnd))

lemma gacLoopF_fixpoint (csp : CSP) :
    ∀ (fuel : Nat) (st : SState) (queue : List Constraint) (ps : List (Nat × Int))
      (st' : SState),
      gacLoopF csp fuel st queue = some (true, ps, st') →
      (∀ c ∈ queue, c ∈ csp.cons) →
      (∀ c ∈ csp.cons, c ∉ queue → gacOK st c) →
      ∀ c ∈ csp.cons, gacOK st' c := by
  intro fuel
  induction fuel with
  | zero => intro st queue ps st' h; cases h
  | succ fuel ih =>
    intro st queue ps st' h hq hinv
    cases queue with
    | nil =>
      have h2 : (some (true, ([] : List (Nat × Int)), st) : Option _) = some (true, ps, st') := h
      cases h2
      intro c hc
      exact hinv c hc (by simp)
    | cons c0 rest =>
      rw [gacLoopF_cons] at h
      rcases hr : gacProcessCons csp st c0 with ⟨st1, ps1, ok1, app1⟩
      rw [hr] at h
      cases ok1 with
      | false =>
        rw [if_neg (by simp)] at h
        exact absurd (congrArg (fun o => o.map fun r => r.1) h) (by simp)
      | true =>
        rw [if_pos rfl] at h
        have hr' : gacVarsLoop csp c0 st (unasgnVars st c0) = (st1, ps1, true, app1) := hr
        have hassign : st1.assigned = st.assigned :=
          gacVarsLoop_assigned csp c0 _ st st1 ps1 true app1 hr'
        rcases h2 : gacLoopF csp fuel st1 (rest ++ app1) with _ | ⟨ok2, ps2, st2⟩
        · rw [h2] at h; cases h
        · rw [h2] at h
          cases h
          apply ih st1 (rest ++ app1) _ _ h2
          · intro c hc
            rcases List.mem_append.mp hc with hc | hc
            · exact hq c (List.mem_cons_of_mem _ hc)
            · exact gacVarsLoop_app_sub csp c0 _ st st1 ps1 true app1 hr' c hc
          · intro c hc hcnot
            by_cases htouch : ∃ w x, (w, x) ∈ ps1 ∧ w ∈ c.scope
            · obtain ⟨w, x, hwx, hws⟩ := htouch
              exact absurd
                (List.mem_append.mpr (Or.inr
                  (gacVarsLoop_ps_app csp c0 _ st st1 ps1 app1 hr' w x hwx c
                    (mem_getConsWithVar.mpr ⟨hc, hws⟩)))) hcnot
            · push_neg at htouch
              have hcur : ∀ w ∈ c.scope, curdomOf st1 w = curdomOf st w := by
                intro w hws
                refine gacVarsLoop_untouched csp c0 _ st st1 ps1 true app1 hr' w ?_
                intro x hx
                exact htouch w x hx hws
              by_cases hcc : c = c0
              · subst hcc
                have hps1 : ps1 = [] := by
                  cases hps1e : ps1 with
                  | nil => rfl
                  | cons p l =>
                    exfalso
                    have hv := gacVarsLoop_vars csp c _ st st1 ps1 true app1 hr' p
                      (by rw [hps1e]; exact List.mem_cons_self _ _)
                    have hscope : p.1 ∈ c.scope := (mem_unasgnVars.mp hv).1
                    exact htouch p.1 p.2 (by rw [hps1e]; exact List.mem_cons_self _ _) hscope
                subst hps1
                obtain ⟨hst1, happ1⟩ := gacVarsLoop_nil_prunes csp c _ st st1 true app1 hr'
                have hsup := gacVarsLoop_nil_support csp c _ st st1 app1 hr'
                rw [hst1]
                intro v hv hna val hval
                exact hsup v (mem_unasgnVars.mpr ⟨hv, hna⟩) val hval
              · have hnotin : c ∉ c0 :: rest := by
                  intro hmem
                  rcases List.mem_cons.mp hmem with heq | hmem2
                  · exact hcc heq
                  · exact hcnot (List.mem_append.mpr (Or.inl hmem2))
                exact (gacOK_congr c hassign hcur).mpr (hinv c hc hnotin)

/-- **C1**: whenever `prop_GAC(csp, None)` returns `(True, pruned)`, every
value remaining in the current domain of every unassigned variable of every
constraint's scope has support in that constraint (the GAC fixpoint
postcondition). -/
theorem prop_GAC_fixpoint (csp : CSP) (fuel : Nat) (st : SState) (ps : List (Nat × Int))
    (st' : SState) (h : prop_GAC csp fuel st none = some (true, ps, st')) :
    ∀ c ∈ csp.cons, ∀ v ∈ c.scope, getAssigned st' v = none →
      ∀ val ∈ curDomain st' v, hasSupport st' c v val = true := by
  have h2 : gacLoopF csp fuel st csp.cons = some (true, ps, st') := h
  intro c hc
  exact gacLoopF_fixpoint csp fuel st csp.cons ps st' h2 (fun c hc => hc)
    (fun c hc hnot => absurd hc hnot) c hc

/-- Concrete CSP for the GAC witnesses: one binary constraint (the
not-equal relation on `{1, 2}`) over two unassigned variables. -/
def gacCsp : CSP := ⟨[0, 1], [⟨[0, 1], [[1, 2], [2, 1]]⟩]⟩

/-- Concrete state for the GAC witnesses: both domains `{1, 2}`. -/
def gacSt : SState := ⟨[[1, 2], [1, 2]], [none, none]⟩

/-- C1 witness: initial GAC propagation on the concrete CSP succeeds and the
fixpoint postcondition holds there. -/
theorem prop_GAC_fixpoint_witness :
    prop_GAC gacCsp 4 gacSt none = some (true, [], gacSt) ∧
      (∀ c ∈ gacCsp.cons, ∀ v ∈ c.scope, getAssigned gacSt v = none →
        ∀ val ∈ curDomain gacSt v, hasSupport gacSt c v val = true) :=
  ⟨by decide, prop_GAC_fixpoint gacCsp 4 gacSt [] gacSt (by decide)⟩

/-! ### FC-side state lemmas and C2 -/

lemma getAssigned_eq_none_of_isAssigned_false {st : SState} {v : Nat}
    (h : isAssigned st v = false) : getAssigned st v = none := by
  unfold isAssigned at h
  cases hga : getAssigned st v with
  | none => rfl
  | some x => rw [hga] at h; cases h

lemma fcScanScope_cons (c : Constraint) (st : SState) (v : Nat) (rest : List Nat) :
    fcScanScope c st (v :: rest) =
      if isAssigned st v then fcScanScope c st rest
      else
        if (curDomain (pruneUnsupported c v st (curDomain st v)).1 v).length == 0 then
          ((pruneUnsupported c v st (curDomain st v)).1,
            (pruneUnsupported c v st (curDomain st v)).2, false)
        else
          ((fcScanScope c (pruneUnsupported c v st (curDomain st v)).1 rest).1,
            (pruneUnsupported c v st (curDomain st v)).2 ++
              (fcScanScope c (pruneUnsupported c v st (curDomain st v)).1 rest).2.1,
            (fcScanScope c (pruneUnsupported c v st (curDomain st v)).1 rest).2.2) := rfl

lemma fcScanScope_pruneExact (c : Constraint) :
    ∀ (vs : List Nat) (st st' : SState) (ps : List (Nat × Int)) (ok : Bool),
      fcScanScope c st vs = (st', ps, ok) → NodupState st →
      PruneExact st st' ps := by
  intro vs
  induction vs with
  | nil => intro st st' ps ok h _; cases h; exact pruneExact_refl st
  | cons v rest ih =>
    intro st st' ps ok h hnd
    rw [fcScanScope_cons] at h
    by_cases hass : isAssigned st v = true
    · rw [if_pos hass] at h
      exact ih st st' ps ok h hnd
    · rw [if_neg hass] at h
      rcases hr1 : pruneUnsupported c v st (curDomain st v) with ⟨st1, ps1⟩
      rw [hr1] at h
      have hpe1 : PruneExact st st1 ps1 :=
        pruneUnsupported_pruneExact hr1
          (getAssigned_eq_none_of_isAssigned_false (Bool.not_eq_true _ ▸ hass)) hnd
      by_cases hwipe : (curDomain st1 v).length = 0
      · rw [if_pos (by simpa using hwipe)] at h
        cases h
        exact hpe1
      · rw [if_neg (by simpa using hwipe)] at h
        rcases hr2 : fcScanScope c st1 rest with ⟨st2, ps2, ok2⟩
        rw [hr2] at h
        cases h
        exact pruneExact_trans hpe1
          (ih st1 st2 ps2 ok2 hr2 (pruneExact_nodupState hpe1 hnd))

lemma fcLoop_cons (st : SState) (c : Constraint) (rest : List Constraint) :
    fcLoop st (c :: rest) =
      if (unasgnVars st c).length == 1 then
        if (fcScanScope c st c.scope).2.2 then
          ((fcLoop (fcScanScope c st c.scope).1 rest).1,
            (fcScanScope c st c.scope).2.1 ++
              (fcLoop (fcScanScope c st c.scope).1 rest).2.1,
            (fcLoop (fcScanScope c st c.scope).1 rest).2.2)
        else ((fcScanScope c st c.scope).1, (fcScanScope c st c.scope).2.1, false)
      else fcLoop st rest := rfl

lemma fcLoop_pruneExact :
    ∀ (cs : List Constraint) (st st' : SState) (ps : List (Nat × Int)) (ok : Bool),
      fcLoop st cs = (st', ps, ok) → NodupState st → PruneExact st st' ps := by
  intro cs
  induction cs with
  | nil => intro st st' ps ok h _; cases h; exact pruneExact_refl st
  | cons c rest ih =>
    intro st st' ps ok h hnd
    rw [fcLoop_cons] at h
    by_cases hone : (unasgnVars st c).length = 1
    · rw [if_pos (by simpa using hone)] at h
      rcases hr1 : fcScanScope c st c.scope with ⟨st1, ps1, ok1⟩
      rw [hr1] at h
      have hpe1 : PruneExact st st1 ps1 := fcScanScope_pruneExact c c.scope st st1 ps1 ok1 hr1 hnd
      cases ok1 with
      | false =>
        rw [if_neg (by simp)] at h
        cases h
        exact hpe1
      | true =>
        rw [if_pos rfl] at h
        rcases hr2 : fcLoop st1 rest with ⟨st2, ps2, ok2⟩
        rw [hr2] at h
        cases h
        exact pruneExact_trans hpe1 (ih st1 st2 ps2 ok2 hr2 (pruneExact_nodupState hpe1 hnd))
    · rw [if_neg (by simpa using hone)] at h
      exact ih st st' ps ok h hnd

lemma pruneExact_exact {st st' : SState} {ps : List (Nat × Int)} (h : PruneExact st st' ps) :
    (∀ w x, x ∈ curdomOf st' w ↔ (x ∈ curdomOf st w ∧ (w, x) ∉ ps)) ∧
    (∀ w x, (w, x) ∈ ps → x ∈ curdomOf st w ∧ x ∉ curdomOf st' w) ∧ ps.Nodup := by
  obtain ⟨ha, hf, hp, hn⟩ := h
  refine ⟨fun w x => ?_, fun w x hx => ?_, hn⟩
  · rw [hf w, List.mem_filter]
    simp
  · refine ⟨hp w x hx, ?_⟩
    rw [hf w, List.mem_filter]
    simp [hx]

lemma prop_FC_eq (csp : CSP) (st : SState) (newVar : Option Nat) :
    prop_FC csp st newVar =
      ((fcLoop st (match newVar with
          | none => csp.cons
          | some v => getConsWithVar csp v)).2.2,
        (fcLoop st (match newVar with
          | none => csp.cons
          | some v => getConsWithVar csp v)).2.1,
        (fcLoop st (match newVar with
          | none => csp.cons
          | some v => getConsWithVar csp v)).1) := rfl

/-- **C2**: on either outcome, `prop_FC` and `prop_GAC` return exactly the
(variable, value) pairs removed from current domains during the call: a
value survives in a final current domain iff it was there before and was
not recorded as pruned, every recorded pair was present before the call and
is gone afterwards, and no pair is recorded twice. -/
theorem prop_FC_prop_GAC_prunes_exact (csp : CSP) (st : SState) (hnd : NodupState st) :
    (∀ newVar : Option Nat,
      (∀ w x, x ∈ curdomOf (prop_FC csp st newVar).2.2 w ↔
        (x ∈ curdomOf st w ∧ (w, x) ∉ (prop_FC csp st newVar).2.1)) ∧
      (∀ w x, (w, x) ∈ (prop_FC csp st newVar).2.1 →
        x ∈ curdomOf st w ∧ x ∉ curdomOf (prop_FC csp st newVar).2.2 w) ∧
      (prop_FC csp st newVar).2.1.Nodup) ∧
    (∀ (fuel : Nat) (newVar : Option Nat) (ok : Bool) (ps : List (Nat × Int)) (st' : SState),
      prop_GAC csp fuel st newVar = some (ok, ps, st') →
      (∀ w x, x ∈ curdomOf st' w ↔ (x ∈ curdomOf st w ∧ (w, x) ∉ ps)) ∧
      (∀ w x, (w, x) ∈ ps → x ∈ curdomOf st w ∧ x ∉ curdomOf st' w) ∧
      ps.Nodup) := by
  constructor
  · intro newVar
    rcases hr : fcLoop st (match newVar with
      | none => csp.cons
      | some v => getConsWithVar csp v) with ⟨st2, ps2, ok2⟩
    have he : prop_FC csp st newVar = (ok2, ps2, st2) := by
      rw [prop_FC_eq, hr]
    rw [he]
    exact pruneExact_exact (fcLoop_pruneExact _ st st2 ps2 ok2 hr hnd)
  · intro fuel newVar ok ps st' h
    cases newVar with
    | none => exact pruneExact_exact (gacLoopF_pruneExact csp fuel st csp.cons ok ps st' h hnd)
    | some v =>
      exact pruneExact_exact
        (gacLoopF_pruneExact csp fuel st (getConsWithVar csp v) ok ps st' h hnd)

lemma nodupState_of_forall {st : SState} (h : ∀ l ∈ st.curdom, l.Nodup) : NodupState st := by
  intro w
  by_cases hw : w < st.curdom.length
  · unfold curdomOf
    rw [List.getD_eq_getElem _ _ hw]
    exact h _ (List.getElem_mem hw)
  · unfold curdomOf
    rw [List.getD_eq_default _ _ (by omega)]
    exact List.nodup_nil

/-- C2 witness: the theorem applies to the concrete CSP and state of the
GAC witness. -/
theorem prop_FC_prop_GAC_prunes_exact_witness :
    (∀ l ∈ gacSt.curdom, l.Nodup) ∧
      ((∀ newVar : Option Nat,
        (∀ w x, x ∈ curdomOf (prop_FC gacCsp gacSt newVar).2.2 w ↔
          (x ∈ curdomOf gacSt w ∧ (w, x) ∉ (prop_FC gacCsp gacSt newVar).2.1)) ∧
        (∀ w x, (w, x) ∈ (prop_FC gacCsp gacSt newVar).2.1 →
          x ∈ curdomOf gacSt w ∧ x ∉ curdomOf (prop_FC gacCsp gacSt newVar).2.2 w) ∧
        (prop_FC gacCsp gacSt newVar).2.1.Nodup) ∧
      (∀ (fuel : Nat) (newVar : Option Nat) (ok : Bool) (ps : List (Nat × Int)) (st' : SState),
        prop_GAC gacCsp fuel gacSt newVar = some (ok, ps, st') →
        (∀ w x, x ∈ curdomOf st' w ↔ (x ∈ curdomOf gacSt w ∧ (w, x) ∉ ps)) ∧
        (∀ w x, (w, x) ∈ ps → x ∈ curdomOf gacSt w ∧ x ∉ curdomOf st' w) ∧
        ps.Nodup)) :=
  ⟨by decide, prop_FC_prop_GAC_prunes_exact gacCsp gacSt (nodupState_of_forall (by decide))⟩

/-! ### C4: termination of prop_GAC -/

/-- All variables occurring in some constraint scope of the CSP (with
multiplicity); the termination measure sums their current-domain sizes. -/
def scopeVars (csp : CSP) : List Nat :=
  csp.cons.flatMap Constraint.scope

/-- Termination measure: total size of the current domains of all scope
variables. -/
def domTotal (csp : CSP) (st : SState) : Nat :=
  ((scopeVars csp).map fun w => (curdomOf st w).length).sum

lemma sum_map_lt {V : List Nat} {f g : Nat → Nat} (hle : ∀ v ∈ V, f v ≤ g v)
    (hlt : ∃ v ∈ V, f v < g v) : (V.map f).sum < (V.map g).sum := by
  induction V with
  | nil => obtain ⟨v, hv, _⟩ := hlt; cases hv
  | cons a V ih =>
    simp only [List.map_cons, List.sum_cons]
    rcases hlt with ⟨v, hv, hvlt⟩
    rcases List.mem_cons.mp hv with rfl | hv
    · have h2 : (V.map f).sum ≤ (V.map g).sum :=
        List.sum_le_sum fun i hi => hle i (List.mem_cons_of_mem _ hi)
      omega
    · have h1 : f a ≤ g a := hle a (List.mem_cons_self _ _)
      have h2 : (V.map f).sum < (V.map g).sum :=
        ih (fun i hi => hle i (List.mem_cons_of_mem _ hi)) ⟨v, hv, hvlt⟩
      omega

lemma domTotal_le (csp : CSP) {st st' : SState}
    (h : ∀ w, (curdomOf st' w).length ≤ (curdomOf st w).length) :
    domTotal csp st' ≤ domTotal csp st :=
  List.sum_le_sum fun w _ => h w

lemma gacProcessCons_strict (csp : CSP) {c : Constraint} {st st' : SState}
    {ps : List (Nat × Int)} {ok : Bool} {app : List Constraint}
    (hr : gacProcessCons csp st c = (st', ps, ok, app)) (hc : c ∈ csp.cons)
    (hne : ps ≠ []) : domTotal csp st' < domTotal csp st := by
  have hr' : gacVarsLoop csp c st (unasgnVars st c) = (st', ps, ok, app) := hr
  obtain ⟨w, hw, hlt⟩ := gacVarsLoop_strict csp c _ st st' ps ok app hr'
    (fun v hv => (mem_unasgnVars.mp hv).2) hne
  have hws : w ∈ scopeVars csp := by
    unfold scopeVars
    rw [List.mem_flatMap]
    exact ⟨c, hc, (mem_unasgnVars.mp hw).1⟩
  exact sum_map_lt (fun v _ => gacVarsLoop_length_le csp c _ st st' ps ok app hr' v)
    ⟨w, hws, hlt⟩

lemma gacLoopF_total_aux (csp : CSP) (D : Nat)
    (ihD : ∀ (st : SState) (queue : List Constraint), domTotal csp st < D →
      (∀ c ∈ queue, c ∈ csp.cons) → ∃ fuel, (gacLoopF csp fuel st queue).isSome = true) :
    ∀ (queue : List Constraint) (st : SState), domTotal csp st ≤ D →
      (∀ c ∈ queue, c ∈ csp.cons) →
      ∃ fuel, (gacLoopF csp fuel st queue).isSome = true := by
  intro queue
  induction queue with
  | nil => intro st _ _; exact ⟨1, rfl⟩
  | cons c rest ih =>
    intro st hD hq
    rcases hr : gacProcessCons csp st c with ⟨st1, ps1, ok1, app1⟩
    cases ok1 with
    | false =>
      refine ⟨1, ?_⟩
      rw [gacLoopF_cons, hr, if_neg (by simp)]
      rfl
    | true =>
      by_cases hps1 : ps1 = []
      · subst hps1
        have hr' : gacVarsLoop csp c st (unasgnVars st c) = (st1, [], true, app1) := hr
        obtain ⟨hst1, happ1⟩ := gacVarsLoop_nil_prunes csp c _ st st1 true app1 hr'
        subst hst1 happ1
        obtain ⟨fuel, hf⟩ := ih st1 hD fun c' hc' => hq c' (List.mem_cons_of_mem _ hc')
        refine ⟨fuel + 1, ?_⟩
        rw [gacLoopF_cons, hr, if_pos rfl]
        obtain ⟨r, heq⟩ := Option.isSome_iff_exists.mp hf
        obtain ⟨ok2, ps2, st2⟩ := r
        rw [List.append_nil, heq]
        rfl
      · have hlt : domTotal csp st1 < domTotal csp st :=
          gacProcessCons_strict csp hr (hq c (List.mem_cons_self _ _)) hps1
        have hr' : gacVarsLoop csp c st (unasgnVars st c) = (st1, ps1, true, app1) := hr
        have hq2 : ∀ c' ∈ rest ++ app1, c' ∈ csp.cons := by
          intro c' hc'
          rcases List.mem_append.mp hc' with hc' | hc'
          · exact hq c' (List.mem_cons_of_mem _ hc')
          · exact gacVarsLoop_app_sub csp c _ st st1 ps1 true app1 hr' c' hc'
        obtain ⟨fuel, hf⟩ := ihD st1 (rest ++ app1) (lt_of_lt_of_le hlt hD) hq2
        refine ⟨fuel + 1, ?_⟩
        rw [gacLoopF_cons, hr, if_pos rfl]
        obtain ⟨r, heq⟩ := Option.isSome_iff_exists.mp hf
        obtain ⟨ok2, ps2, st2⟩ := r
        rw [heq]
        rfl

lemma gacLoopF_total (csp : CSP) :
    ∀ (D : Nat) (st : SState) (queue : List Constraint), domTotal csp st ≤ D →
      (∀ c ∈ queue, c ∈ csp.cons) →
      ∃ fuel, (gacLoopF csp fuel st queue).isSome = true := by
  intro D
  induction D using Nat.strong_induction_on with
  | _ D ihD =>
    intro st queue hD hq
    refine gacLoopF_total_aux csp D ?_ queue st hD hq
    intro st' queue' hlt hq'
    exact ihD (domTotal csp st') hlt st' queue' (le_refl _) hq'

/-- **C4**: `prop_GAC` terminates on every CSP and state: some finite fuel
makes the worklist processing finish (either at the fixpoint or at an early
domain-wipeout return), even though pruning re-enqueues constraints without
deduplication. -/
theorem prop_GAC_terminates (csp : CSP) (st : SState) (newVar : Option Nat) :
    ∃ fuel, (prop_GAC csp fuel st newVar).isSome = true := by
  cases newVar with
  | none =>
    exact gacLoopF_total csp (domTotal csp st) st csp.cons (le_refl _) fun c hc => hc
  | some v =>
    exact gacLoopF_total csp (domTotal csp st) st (getConsWithVar csp v) (le_refl _)
      fun c hc => (mem_getConsWithVar.mp hc).1

/-! ### C7: prune_value safety via checked pruning -/

/-- Modelled from the spec: `prune_value` is a logic error when the value is
already absent from the current domain; `none` signals that error. -/
def pruneValueChecked (st : SState) (v : Nat) (val : Int) : Option SState :=
  if val ∈ curdomOf st v then some (pruneValue st v val) else none

/-- `pruneUnsupported` with the checked pruning step. -/
def pruneUnsupportedChecked (c : Constraint) (v : Nat) :
    SState → List Int → Option (SState × List (Nat × Int))
  | st, [] => some (st, [])
  | st, val :: rest =>
    if hasSupport st c v val then pruneUnsupportedChecked c v st rest
    else
      match pruneValueChecked st v val with
      | none => none
      | some st1 =>
        match pruneUnsupportedChecked c v st1 rest with
        | none => none
        | some res => some (res.1, (v, val) :: res.2)

/-- `fcScanScope` with the checked pruning step. -/
def fcScanScopeChecked (c : Constraint) :
    SState → List Nat → Option (SState × List (Nat × Int) × Bool)
  | st, [] => some (st, [], true)
  | st, v :: rest =>
    if isAssigned st v then fcScanScopeChecked c st rest
    else
      match pruneUnsupportedChecked c v st (curDomain st v) with
      | none => none
      | some r1 =>
        if (curDomain r1.1 v).length == 0 then some (r1.1, r1.2, false)
        else
          match fcScanScopeChecked c r1.1 rest with
          | none => none
          | some r2 => some (r2.1, r1.2 ++ r2.2.1, r2.2.2)

/-- `fcLoop` with the checked pruning step. -/
def fcLoopChecked : SState → List Constraint → Option (SState × List (Nat × Int) × Bool)
  | st, [] => some (st, [], true)
  | st, c :: rest =>
    if (unasgnVars st c).length == 1 then
      match fcScanScopeChecked c st c.scope with
      | none => none
      | some r1 =>
        if r1.2.2 then
          match fcLoopChecked r1.1 rest with
          | none => none
          | some r2 => some (r2.1, r1.2.1 ++ r2.2.1, r2.2.2)
        else some (r1.1, r1.2.1, false)
    else fcLoopChecked st rest

/-- `prop_FC` with the checked pruning step. -/
def prop_FC_checked (csp : CSP) (st : SState) (newVar : Option Nat) :
    Option (Bool × List (Nat × Int) × SState) :=
  match fcLoopChecked st (match newVar with
    | none => csp.cons
    | some v => getConsWithVar csp v) with
  | none => none
  | some r => some (r.2.2, r.2.1, r.1)

/-- `gacVarsLoop` with the checked pruning step. -/
def gacVarsLoopChecked (csp : CSP) (c : Constraint) :
    SState → List Nat → Option (SState × List (Nat × Int) × Bool × List Constraint)
  | st, [] => some (st, [], true, [])
  | st, v :: rest =>
    match pruneUnsupportedChecked c v st (curDomain st v) with
    | none => none
    | some r1 =>
      if (curDomain r1.1 v).length == 0 then some (r1.1, r1.2, false, [])
      else
        match gacVarsLoopChecked csp c r1.1 rest with
        | none => none
        | some r2 =>
          some (r2.1, r1.2 ++ r2.2.1, r2.2.2.1,
            (if r1.2.isEmpty then [] else getConsWithVar csp v) ++ r2.2.2.2)

/-- `gacLoopF` with the checked pruning step. -/
def gacLoopFChecked (csp : CSP) : Nat → SState → List Constraint →
    Option (Bool × List (Nat × Int) × SState)
  | 0, _, _ => none
  | _ + 1, st, [] => some (true, [], st)
  | fuel + 1, st, c :: rest =>
    match gacVarsLoopChecked csp c st (unasgnVars st c) with
    | none => none
    | some r =>
      if r.2.2.1 then
        match gacLoopFChecked csp fuel r.1 (rest ++ r.2.2.2) with
        | none => none
        | some (ok2, ps2, st2) => some (ok2, r.2.1 ++ ps2, st2)
      else some (false, r.2.1, r.1)

/-- `prop_GAC` with the checked pruning step. -/
def prop_GAC_checked (csp : CSP) (fuel : Nat) (st : SState) (newVar : Option Nat) :
    Option (Bool × List (Nat × Int) × SState) :=
  gacLoopFChecked csp fuel st (match newVar with
    | none => csp.cons
    | some v => getConsWithVar csp v)

lemma pruneUnsupportedChecked_cons (c : Constraint) (v : Nat) (st : SState) (val : Int)
    (rest : List Int) :
    pruneUnsupportedChecked c v st (val :: rest) =
      if hasSupport st c v val then pruneUnsupportedChecked c v st rest
      else
        match pruneValueChecked st v val with
        | none => none
        | some st1 =>
          match pruneUnsupportedChecked c v st1 rest with
          | none => none
          | some res => some (res.1, (v, val) :: res.2) := rfl

lemma pruneUnsupportedChecked_eq (c : Constraint) (v : Nat) :
    ∀ (vals : List Int) (st : SState), vals.Nodup → (∀ x ∈ vals, x ∈ curdomOf st v) →
      pruneUnsupportedChecked c v st vals = some (pruneUnsupported c v st vals) := by
  intro vals
  induction vals with
  | nil => intro st _ _; rfl
  | cons val rest ih =>
    intro st hnv hval
    rw [pruneUnsupportedChecked_cons, pruneUnsupported_cons]
    by_cases hs : hasSupport st c v val = true
    · rw [if_pos hs, if_pos hs]
      exact ih st (List.nodup_cons.mp hnv).2 fun x hx => hval x (List.mem_cons_of_mem _ hx)
    · rw [if_neg hs, if_neg hs]
      have hmem : val ∈ curdomOf st v := hval val (List.mem_cons_self _ _)
      have hpc : pruneValueChecked st v val = some (pruneValue st v val) := by
        rw [pruneValueChecked, if_pos hmem]
      have hrest : pruneUnsupportedChecked c v (pruneValue st v val) rest =
          some (pruneUnsupported c v (pruneValue st v val) rest) := by
        apply ih _ (List.nodup_cons.mp hnv).2
        intro x hx
        rw [curdomOf_pruneValue_self]
        refine (List.mem_erase_of_ne fun heq =>
          (List.nodup_cons.mp hnv).1 (by rw [← heq]; exact hx)).mpr
          (hval x (List.mem_cons_of_mem _ hx))
      rw [hpc]
      dsimp only
      rw [hrest]

lemma fcScanScopeChecked_cons (c : Constraint) (st : SState) (v : Nat) (rest : List Nat) :
    fcScanScopeChecked c st (v :: rest) =
      if isAssigned st v then fcScanScopeChecked c st rest
      else
        match pruneUnsupportedChecked c v st (curDomain st v) with
        | none => none
        | some r1 =>
          if (curDomain r1.1 v).length == 0 then some (r1.1, r1.2, false)
          else
            match fcScanScopeChecked c r1.1 rest with
            | none => none
            | some r2 => some (r2.1, r1.2 ++ r2.2.1, r2.2.2) := rfl

lemma fcScanScopeChecked_eq (c : Constraint) :
    ∀ (vs : List Nat) (st : SState), NodupState st →
      fcScanScopeChecked c st vs = some (fcScanScope c st vs) := by
  intro vs
  induction vs with
  | nil => intro st _; rfl
  | cons v rest ih =>
    intro st hnd
    rw [fcScanScopeChecked_cons, fcScanScope_cons]
    by_cases hass : isAssigned st v = true
    · rw [if_pos hass, if_pos hass]
      exact ih st hnd
    · rw [if_neg hass, if_neg hass]
      have hna : getAssigned st v = none :=
        getAssigned_eq_none_of_isAssigned_false (Bool.not_eq_true _ ▸ hass)
      have hchk : pruneUnsupportedChecked c v st (curDomain st v) =
          some (pruneUnsupported c v st (curDomain st v)) := by
        rw [curDomain_of_unassigned hna]
        exact pruneUnsupportedChecked_eq c v _ st (hnd v) fun x hx => hx
      rw [hchk]
      dsimp only
      rcases hr1 : pruneUnsupported c v st (curDomain st v) with ⟨st1, ps1⟩
      have hpe1 : PruneExact st st1 ps1 := pruneUnsupported_pruneExact hr1 hna hnd
      by_cases hwipe : (curDomain st1 v).length = 0
      · rw [if_pos (by simpa using hwipe), if_pos (by simpa using hwipe)]
      · rw [if_neg (by simpa using hwipe), if_neg (by simpa using hwipe)]
        rw [ih st1 (pruneExact_nodupState hpe1 hnd)]

lemma fcLoopChecked_cons (st : SState) (c : Constraint) (rest : List Constraint) :
    fcLoopChecked st (c :: rest) =
      if (unasgnVars st c).length == 1 then
        match fcScanScopeChecked c st c.scope with
        | none => none
        | some r1 =>
          if r1.2.2 then
            match fcLoopChecked r1.1 rest with
            | none => none
            | some r2 => some (r2.1, r1.2.1 ++ r2.2.1, r2.2.2)
          else some (r1.1, r1.2.1, false)
      else fcLoopChecked st rest := rfl

lemma fcLoopChecked_eq :
    ∀ (cs : List Constraint) (st : SState), NodupState st →
      fcLoopChecked st cs = some (fcLoop st cs) := by
  intro cs
  induction cs with
  | nil => intro st _; rfl
  | cons c rest ih =>
    intro st hnd
    rw [fcLoopChecked_cons, fcLoop_cons]
    by_cases hone : ((unasgnVars st c).length == 1) = true
    · rw [if_pos hone, if_pos hone]
      rw [fcScanScopeChecked_eq c c.scope st hnd]
      dsimp only
      rcases hr1 : fcScanScope c st c.scope with ⟨st1, ps1, ok1⟩
      have hpe1 : PruneExact st st1 ps1 := fcScanScope_pruneExact c c.scope st st1 ps1 ok1 hr1 hnd
      cases ok1 with
      | false => rw [if_neg (by simp), if_neg (by simp)]
      | true =>
        rw [if_pos rfl, if_pos rfl]
        rw [ih st1 (pruneExact_nodupState hpe1 hnd)]
    · rw [if_neg hone, if_neg hone]
      exact ih st hnd

lemma gacVarsLoopChecked_cons (csp : CSP) (c : Constraint) (st : SState) (v : Nat)
    (rest : List Nat) :
    gacVarsLoopChecked csp c st (v :: rest) =
      match pruneUnsupportedChecked c v st (curDomain st v) with
      | none => none
      | some r1 =>
        if (curDomain r1.1 v).length == 0 then some (r1.1, r1.2, false, [])
        else
          match gacVarsLoopChecked csp c r1.1 rest with
          | none => none
          | some r2 =>
            some (r2.1, r1.2 ++ r2.2.1, r2.2.2.1,
              (if r1.2.isEmpty then [] else getConsWithVar csp v) ++ r2.2.2.2) := rfl

lemma gacVarsLoopChecked_eq (csp : CSP) (c : Constraint) :
    ∀ (vs : List Nat) (st : SState), NodupState st →
      (∀ v ∈ vs, getAssigned st v = none) →
      gacVarsLoopChecked csp c st vs = some (gacVarsLoop csp c st vs) := by
  intro vs
  induction vs with
  | nil => intro st _ _; rfl
  | cons v rest ih =>
    intro st hnd hun
    rw [gacVarsLoopChecked_cons, gacVarsLoop_cons]
    have hna : getAssigned st v = none := hun v (List.mem_cons_self _ _)
    have hchk : pruneUnsupportedChecked c v st (curDomain st v) =
        some (pruneUnsupported c v st (curDomain st v)) := by
      rw [curDomain_of_unassigned hna]
      exact pruneUnsupportedChecked_eq c v _ st (hnd v) fun x hx => hx
    rw [hchk]
    dsimp only
    rcases hr1 : pruneUnsupported c v st (curDomain st v) with ⟨st1, ps1⟩
    have hpe1 : PruneExact st st1 ps1 := pruneUnsupported_pruneExact hr1 hna hnd
    have hun2 : ∀ w ∈ rest, getAssigned st1 w = none := by
      intro w hw
      rw [pruneExact_getAssigned hpe1 w]
      exact hun w (List.mem_cons_of_mem _ hw)
    dsimp only
    by_cases hwipe : (curDomain st1 v).length = 0
    · rw [if_pos (show (((curDomain st1 v).length == 0) = true) from by simpa using hwipe),
        if_pos (show (((curDomain st1 v).length == 0) = true) from by simpa using hwipe)]
    · rw [if_neg (show ¬(((curDomain st1 v).length == 0) = true) from by simpa using hwipe),
        if_neg (show ¬(((curDomain st1 v).length == 0) = true) from by simpa using hwipe),
        ih st1 (pruneExact_nodupState hpe1 hnd) hun2]

lemma gacLoopFChecked_cons (csp : CSP) (fuel : Nat) (st : SState) (c : Constraint)
    (rest : List Constraint) :
    gacLoopFChecked csp (fuel + 1) st (c :: rest) =
      match gacVarsLoopChecked csp c st (unasgnVars st c) with
      | none => none
      | some r =>
        if r.2.2.1 then
          match gacLoopFChecked csp fuel r.1 (rest ++ r.2.2.2) with
          | none => none
          | some (ok2, ps2, st2) => some (ok2, r.2.1 ++ ps2, st2)
        else some (false, r.2.1, r.1) := rfl

lemma gacLoopFChecked_eq (csp : CSP) :
    ∀ (fuel : Nat) (st : SState) (queue : List Constraint), NodupState st →
      gacLoopFChecked csp fuel st queue = gacLoopF csp fuel st queue := by
  intro fuel
  induction fuel with
  | zero => intro st queue _; rfl
  | succ fuel ih =>
    intro st queue hnd
    cases queue with
    | nil => rfl
    | cons c rest =>
      rw [gacLoopFChecked_cons, gacLoopF_cons]
      rw [gacVarsLoopChecked_eq csp c _ st hnd fun v hv => (mem_unasgnVars.mp hv).2]
      dsimp only
      rcases hr : gacVarsLoop csp c st (unasgnVars st c) with ⟨st1, ps1, ok1, app1⟩
      have hrp : gacProcessCons csp st c = (st1, ps1, ok1, app1) := hr
      rw [hrp]
      have hpe1 : PruneExact st st1 ps1 :=
        gacVarsLoop_pruneExact csp c _ st st1 ps1 ok1 app1 hr hnd
          fun v hv => (mem_unasgnVars.mp hv).2
      cases ok1 with
      | false => rw [if_neg (by simp), if_neg (by simp)]
      | true =>
        rw [if_pos rfl, if_pos rfl]
        rw [ih st1 (rest ++ app1) (pruneExact_nodupState hpe1 hnd)]

/-- **C7**: within a single `prop_FC` or `prop_GAC` call on duplicate-free
domains, every `prune_value` invocation receives a value currently present
in the variable's domain (the checked variants, whose pruning step errors
on an absent value, agree exactly with the originals), and no
(variable, value) pair is pruned twice. -/
theorem prune_value_safety (csp : CSP) (st : SState) (hnd : NodupState st) :
    (∀ newVar : Option Nat, prop_FC_checked csp st newVar = some (prop_FC csp st newVar)) ∧
    (∀ (fuel : Nat) (newVar : Option Nat),
      prop_GAC_checked csp fuel st newVar = prop_GAC csp fuel st newVar) ∧
    (∀ newVar : Option Nat, (prop_FC csp st newVar).2.1.Nodup) ∧
    (∀ (fuel : Nat) (newVar : Option Nat) (ok : Bool) (ps : List (Nat × Int)) (st' : SState),
      prop_GAC csp fuel st newVar = some (ok, ps, st') → ps.Nodup) := by
  obtain ⟨hfc, hgac⟩ := prop_FC_prop_GAC_prunes_exact csp st hnd
  refine ⟨fun newVar => ?_, fun fuel newVar => ?_, fun newVar => (hfc newVar).2.2,
    fun fuel newVar ok ps st' h => (hgac fuel newVar ok ps st' h).2.2⟩
  · cases newVar with
    | none =>
      show (match fcLoopChecked st csp.cons with
        | none => none
        | some r => some (r.2.2, r.2.1, r.1)) = _
      rw [fcLoopChecked_eq csp.cons st hnd]
      rfl
    | some v =>
      show (match fcLoopChecked st (getConsWithVar csp v) with
        | none => none
        | some r => some (r.2.2, r.2.1, r.1)) = _
      rw [fcLoopChecked_eq (getConsWithVar csp v) st hnd]
      rfl
  · cases newVar with
    | none => exact gacLoopFChecked_eq csp fuel st csp.cons hnd
    | some v => exact gacLoopFChecked_eq csp fuel st (getConsWithVar csp v) hnd

/-- C7 witness: the theorem applies to the concrete CSP and state of the
GAC witness, and the checked GAC run agrees there. -/
theorem prune_value_safety_witness :
    (∀ l ∈ gacSt.curdom, l.Nodup) ∧
      ((∀ newVar : Option Nat,
        prop_FC_checked gacCsp gacSt newVar = some (prop_FC gacCsp gacSt newVar)) ∧
      (∀ (fuel : Nat) (newVar : Option Nat),
        prop_GAC_checked gacCsp fuel gacSt newVar = prop_GAC gacCsp fuel gacSt newVar) ∧
      (∀ newVar : Option Nat, (prop_FC gacCsp gacSt newVar).2.1.Nodup) ∧
      (∀ (fuel : Nat) (newVar : Option Nat) (ok : Bool) (ps : List (Nat × Int)) (st' : SState),
        prop_GAC gacCsp fuel gacSt newVar = some (ok, ps, st') → ps.Nodup)) :=
  ⟨by decide, prune_value_safety gacCsp gacSt (nodupState_of_forall (by decide))⟩

/-! ### C3: prop_FC against the specification's description -/

lemma suppAux_local {st1 st2 : SState} (hass : st1.assigned = st2.assigned) (v : Nat) :
    ∀ (ws : List Nat) (xs : List Int) (k i : Nat),
      (∀ w ∈ ws, w ≠ v → curdomOf st1 w = curdomOf st2 w) →
      (∀ j : Nat, ws.get? j = some v → i + j = k) →
      suppAux st1 k i ws xs = suppAux st2 k i ws xs := by
  intro ws
  induction ws with
  | nil => intro xs k i _ _; cases xs <;> rfl
  | cons w ws ih =>
    intro xs k i hcur hpos
    cases xs with
    | nil => rfl
    | cons x xs =>
      simp only [suppAux]
      have hrec := ih xs k (i + 1) (fun u hu => hcur u (List.mem_cons_of_mem _ hu))
        (fun j hj => by
          have := hpos (j + 1) (by simpa using hj)
          omega)
      rw [hrec]
      by_cases hik : (i == k) = true
      · simp [hik]
      · by_cases hwv : w = v
        · subst hwv
          have h0 := hpos 0 (by simp)
          simp only [beq_iff_eq] at hik
          omega
        · have hd : curDomain st1 w = curDomain st2 w :=
            curDomain_congr hass (hcur w (List.mem_cons_self _ _) hwv)
          rw [hd]

lemma hasSupport_local {st1 st2 : SState} (c : Constraint) (v : Nat)
    (hass : st1.assigned = st2.assigned) (hnd : c.scope.Nodup)
    (hcur : ∀ w ∈ c.scope, w ≠ v → curdomOf st1 w = curdomOf st2 w) (val : Int) :
    hasSupport st1 c v val = hasSupport st2 c v val := by
  have hpos : ∀ j : Nat, c.scope.get? j = some v → 0 + j = c.scope.indexOf v := by
    intro j hj
    rw [List.get?_eq_getElem?] at hj
    obtain ⟨hlt, hval⟩ := List.getElem?_eq_some.mp hj
    have := List.indexOf_getElem hnd j hlt
    rw [hval] at this
    omega
  unfold hasSupport
  apply list_any_congr
  intro t _
  rw [suppAux_local hass v c.scope t (c.scope.indexOf v) 0 hcur hpos]

lemma list_set_getD_self (l : List (List Int)) (u : Nat) :
    l.set u (l.getD u []) = l := by
  by_cases h : u < l.length
  · apply List.ext_getElem?
    intro n
    by_cases hn : u = n
    · subst hn
      rw [List.getElem?_set_self h, List.getD_eq_getElem _ _ h]
      rw [List.getElem?_eq_getElem h]
    · rw [List.getElem?_set_ne hn]
  · exact List.set_eq_of_length_le (by omega)

lemma getD_set_filterD (l : List (List Int)) (u : Nat) (f : Int → Bool) :
    (l.set u ((l.getD u []).filter f)).getD u [] = (l.getD u []).filter f := by
  by_cases h : u < l.length
  · rw [List.getD_eq_getElem?_getD, List.getElem?_set_self h]
    rfl
  · rw [List.set_eq_of_length_le (by omega), List.getD_eq_default _ _ (by omega)]
    rfl

lemma pruneUnsupported_eq_filter (c : Constraint) (v : Nat) (hnd : c.scope.Nodup) :
    ∀ (vals pre : List Int) (st : SState), curdomOf st v = pre ++ vals →
      (∀ x ∈ pre, hasSupport st c v x = true) → getAssigned st v = none →
      pruneUnsupported c v st vals =
        (⟨st.curdom.set v (pre ++ vals.filter fun x => hasSupport st c v x), st.assigned⟩,
          (vals.filter fun x => !hasSupport st c v x).map fun x => (v, x)) := by
  intro vals
  induction vals with
  | nil =>
    intro pre st hcd _ _
    have hpre2 : pre = st.curdom.getD v [] := by
      have h2 : curdomOf st v = pre := by rw [hcd]; simp
      rw [← h2]
      rfl
    simp only [pruneUnsupported, List.filter_nil, List.append_nil, List.map_nil]
    rw [hpre2, list_set_getD_self]
  | cons val rest ih =>
    intro pre st hcd hpre hna
    rw [pruneUnsupported_cons]
    by_cases hs : hasSupport st c v val = true
    · rw [if_pos hs]
      have hstep := ih (pre ++ [val]) st (by rw [hcd]; simp) ?_ hna
      · rw [hstep]
        simp [hs, List.filter_cons, List.append_assoc]
      · intro x hx
        rcases List.mem_append.mp hx with hx | hx
        · exact hpre x hx
        · rw [List.mem_singleton.mp hx]; exact hs
    · rw [if_neg hs]
      have hvalpre : val ∉ pre := fun hmem => hs (hpre val hmem)
      have hcd1 : curdomOf (pruneValue st v val) v = pre ++ rest := by
        rw [curdomOf_pruneValue_self, hcd, List.erase_append_right _ hvalpre,
          List.erase_cons_head]
      have hsupp_eq : ∀ x, hasSupport (pruneValue st v val) c v x = hasSupport st c v x := by
        intro x
        refine hasSupport_local c v (pruneValue_assigned st v val) hnd ?_ x
        intro w _ hwv
        exact curdomOf_pruneValue_ne st v val w hwv
      have hstep := ih pre (pruneValue st v val) hcd1
        (fun x hx => (hsupp_eq x).trans (hpre x hx))
        (by rw [getAssigned_pruneValue]; exact hna)
      rw [hstep]
      refine Prod.ext ?_ ?_
      · show (⟨(pruneValue st v val).curdom.set v _, (pruneValue st v val).assigned⟩ : SState) = _
        have hset : (pruneValue st v val).curdom.set v
            (pre ++ rest.filter fun x => hasSupport (pruneValue st v val) c v x) =
            st.curdom.set v (pre ++ (val :: rest).filter fun x => hasSupport st c v x) := by
          show (st.curdom.set v _).set v _ = _
          rw [List.set_set]
          congr 2
          rw [List.filter_cons, if_neg (by simp [hs])]
          apply List.filter_congr
          intro x _
          exact hsupp_eq x
        rw [hset]
        rfl
      · show (v, val) :: List.map _ (List.filter _ rest) = _
        have hfil : List.filter (fun x => !hasSupport st c v x) (val :: rest) =
            val :: List.filter (fun x => !hasSupport st c v x) rest := by
          rw [List.filter_cons]
          simp [hs]
        rw [hfil, List.map_cons]
        congr 2
        apply List.filter_congr
        intro x _
        rw [hsupp_eq x]

lemma isAssigned_congr {st1 st2 : SState} (hass : st1.assigned = st2.assigned) (w : Nat) :
    isAssigned st1 w = isAssigned st2 w := by
  unfold isAssigned
  rw [getAssigned_congr hass]

lemma fcScanScope_all_assigned (c : Constraint) :
    ∀ (vs : List Nat) (st : SState), (∀ v ∈ vs, isAssigned st v = true) →
      fcScanScope c st vs = (st, [], true) := by
  intro vs
  induction vs with
  | nil => intro st _; rfl
  | cons v rest ih =>
    intro st hall
    rw [fcScanScope_cons, if_pos (hall v (List.mem_cons_self _ _))]
    exact ih st fun u hu => hall u (List.mem_cons_of_mem _ hu)

lemma fcScanScope_one (c : Constraint) :
    ∀ (vs : List Nat) (st : SState) (u : Nat),
      vs.filter (fun v => !isAssigned st v) = [u] →
      fcScanScope c st vs =
        (if (curDomain (pruneUnsupported c u st (curDomain st u)).1 u).length == 0 then
          ((pruneUnsupported c u st (curDomain st u)).1,
            (pruneUnsupported c u st (curDomain st u)).2, false)
        else
          ((pruneUnsupported c u st (curDomain st u)).1,
            (pruneUnsupported c u st (curDomain st u)).2, true)) := by
  intro vs
  induction vs with
  | nil => intro st u h; cases h
  | cons v rest ih =>
    intro st u h
    rw [fcScanScope_cons]
    by_cases hass : isAssigned st v = true
    · rw [if_pos hass]
      rw [List.filter_cons, if_neg (by simp [hass])] at h
      exact ih st u h
    · rw [if_neg hass]
      rw [List.filter_cons, if_pos (by simp [Bool.not_eq_true _ ▸ hass])] at h
      simp only [List.cons.injEq] at h
      obtain ⟨rfl, hrest⟩ := h
      rcases hr1 : pruneUnsupported c v st (curDomain st v) with ⟨st1, ps1⟩
      have hall : ∀ w ∈ rest, isAssigned st1 w = true := by
        intro w hw
        rw [isAssigned_congr (pruneUnsupported_assigned c v _ _ _ _ hr1) w]
        have h2 := List.filter_eq_nil.mp hrest w hw
        simpa using h2
      dsimp only
      by_cases hwipe : (curDomain st1 v).length = 0
      · rw [if_pos (show (((curDomain st1 v).length == 0) = true) from by simpa using hwipe),
          if_pos (show (((curDomain st1 v).length == 0) = true) from by simpa using hwipe)]
      · rw [if_neg (show ¬(((curDomain st1 v).length == 0) = true) from by simpa using hwipe),
          if_neg (show ¬(((curDomain st1 v).length == 0) = true) from by simpa using hwipe),
          fcScanScope_all_assigned c rest st1 hall]
        simp

/-- Modelled from the spec: one forward-checking step as §4.4 of the spec
describes it — for a constraint with exactly one unassigned variable,
exactly the current-domain values lacking support are pruned; failure is
signalled precisely when this empties the domain. -/
def fcReferenceStep (st : SState) (c : Constraint) : SState × List (Nat × Int) × Bool :=
  match unasgnVars st c with
  | [u] =>
    (⟨st.curdom.set u ((curDomain st u).filter fun x => hasSupport st c u x), st.assigned⟩,
      ((curDomain st u).filter fun x => !hasSupport st c u x).map fun x => (u, x),
      decide (((curDomain st u).filter fun x => hasSupport st c u x) ≠ []))
  | _ => (st, [], true)

/-- Modelled from the spec: the forward-checking pass over the examined
constraints, stopping at the first domain wipeout with the prunes made so
far. -/
def fcReferenceLoop : SState → List Constraint → SState × List (Nat × Int) × Bool
  | st, [] => (st, [], true)
  | st, c :: rest =>
    let r := fcReferenceStep st c
    if r.2.2 then
      let r2 := fcReferenceLoop r.1 rest
      (r2.1, r.2.1 ++ r2.2.1, r2.2.2)
    else (r.1, r.2.1, false)

/-- Modelled from the spec: forward checking as §4.4 of the spec describes
it — examine all constraints (initial call) or only the constraints
touching the newly assigned variable (incremental call), restricted to
those with exactly one unassigned variable. -/
def fcReference (csp : CSP) (st : SState) (newVar : Option Nat) :
    Bool × List (Nat × Int) × SState :=
  let r := fcReferenceLoop st (match newVar with
    | none => csp.cons
    | some v => getConsWithVar csp v)
  (r.2.2, r.2.1, r.1)

lemma fcReferenceLoop_cons (st : SState) (c : Constraint) (rest : List Constraint) :
    fcReferenceLoop st (c :: rest) =
      if (fcReferenceStep st c).2.2 then
        ((fcReferenceLoop (fcReferenceStep st c).1 rest).1,
          (fcReferenceStep st c).2.1 ++ (fcReferenceLoop (fcReferenceStep st c).1 rest).2.1,
          (fcReferenceLoop (fcReferenceStep st c).1 rest).2.2)
      else ((fcReferenceStep st c).1, (fcReferenceStep st c).2.1, false) := rfl

lemma fcLoop_eq_reference :
    ∀ (cs : List Constraint) (st : SState), (∀ c ∈ cs, c.scope.Nodup) →
      fcLoop st cs = fcReferenceLoop st cs := by
  intro cs
  induction cs with
  | nil => intro st _; rfl
  | cons c rest ih =>
    intro st hnd
    rw [fcLoop_cons, fcReferenceLoop_cons]
    cases hu : unasgnVars st c with
    | nil =>
      have hstep : fcReferenceStep st c = (st, [], true) := by
        unfold fcReferenceStep
        rw [hu]
      rw [hstep, if_neg (by simp),
        ih st fun c' hc' => hnd c' (List.mem_cons_of_mem _ hc')]
      simp
    | cons u tail =>
      cases tail with
      | cons u2 tail2 =>
        have hstep : fcReferenceStep st c = (st, [], true) := by
          unfold fcReferenceStep
          rw [hu]
        rw [hstep, if_neg (by simp),
          ih st fun c' hc' => hnd c' (List.mem_cons_of_mem _ hc')]
        simp
      | nil =>
        have humem : u ∈ unasgnVars st c := by rw [hu]; exact List.mem_cons_self _ _
        have hna : getAssigned st u = none := (mem_unasgnVars.mp humem).2
        have hcdeq : curDomain st u = curdomOf st u := curDomain_of_unassigned hna
        have hprune := pruneUnsupported_eq_filter c u (hnd c (List.mem_cons_self _ _))
          (curDomain st u) [] st (by rw [hcdeq]; simp) (by simp) hna
        have hstep : fcReferenceStep st c =
            (⟨st.curdom.set u ((curDomain st u).filter fun x => hasSupport st c u x),
              st.assigned⟩,
              ((curDomain st u).filter fun x => !hasSupport st c u x).map fun x => (u, x),
              decide (((curDomain st u).filter fun x => hasSupport st c u x) ≠ [])) := by
          unfold fcReferenceStep
          rw [hu]
        have hscan := fcScanScope_one c c.scope st u hu
        have hst1dom : curDomain (pruneUnsupported c u st (curDomain st u)).1 u =
            (curDomain st u).filter fun x => hasSupport st c u x := by
          rw [hprune]
          have hass2 : getAssigned
              (⟨st.curdom.set u ([] ++ (curDomain st u).filter fun x => hasSupport st c u x),
                st.assigned⟩ : SState) u = none := hna
          rw [curDomain_of_unassigned hass2]
          show (st.curdom.set u _).getD u [] = _
          simp only [List.nil_append]
          have : (curDomain st u).filter (fun x => hasSupport st c u x) =
              (st.curdom.getD u []).filter (fun x => hasSupport st c u x) := by
            rw [hcdeq]; rfl
          rw [this]
          exact getD_set_filterD st.curdom u _
        rw [if_pos (by simp), hscan, hstep]
        by_cases hk : ((curDomain st u).filter fun x => hasSupport st c u x) = []
        · have hcond : ((curDomain (pruneUnsupported c u st (curDomain st u)).1 u).length == 0)
              = true := by
            rw [hst1dom, hk]
            simp
          rw [if_pos hcond]
          have hok : (decide ((((curDomain st u).filter fun x => hasSupport st c u x)) ≠ []))
              = false := by simp [hk]
          rw [hok]
          dsimp only
          rw [if_neg (by simp), if_neg (by simp)]
          rw [hprune]
          simp
        · have hcond : ¬ (((curDomain (pruneUnsupported c u st (curDomain st u)).1 u).length == 0)
              = true) := by
            rw [hst1dom]
            simpa using hk
          rw [if_neg hcond]
          have hok : (decide ((((curDomain st u).filter fun x => hasSupport st c u x)) ≠ []))
              = true := by simp [hk]
          rw [hok]
          dsimp only
          rw [if_pos rfl, if_pos rfl]
          rw [hprune]
          have hrec := ih (⟨st.curdom.set u
              ([] ++ (curDomain st u).filter fun x => hasSupport st c u x), st.assigned⟩ : SState)
            fun c' hc' => hnd c' (List.mem_cons_of_mem _ hc')
          dsimp only
          rw [hrec]
          simp

/-- **C3**: `prop_FC` coincides with the specification's description of
forward checking: it examines exactly the constraints with one unassigned
variable left — all constraints when `newVar` is `None`, only those
touching `newVar` otherwise — prunes for the sole unassigned variable
precisely the current-domain values lacking support, and returns `False`
(with the prunes so far) iff such a variable's domain becomes empty. -/
theorem prop_FC_matches_reference (csp : CSP) (st : SState)
    (hnd : ∀ c ∈ csp.cons, c.scope.Nodup) (newVar : Option Nat) :
    prop_FC csp st newVar = fcReference csp st newVar := by
  cases newVar with
  | none =>
    show ((fcLoop st csp.cons).2.2, (fcLoop st csp.cons).2.1, (fcLoop st csp.cons).1) =
      ((fcReferenceLoop st csp.cons).2.2, (fcReferenceLoop st csp.cons).2.1,
        (fcReferenceLoop st csp.cons).1)
    rw [fcLoop_eq_reference csp.cons st hnd]
  | some v =>
    show ((fcLoop st (getConsWithVar csp v)).2.2, (fcLoop st (getConsWithVar csp v)).2.1,
        (fcLoop st (getConsWithVar csp v)).1) =
      ((fcReferenceLoop st (getConsWithVar csp v)).2.2,
        (fcReferenceLoop st (getConsWithVar csp v)).2.1,
        (fcReferenceLoop st (getConsWithVar csp v)).1)
    rw [fcLoop_eq_reference (getConsWithVar csp v) st
      fun c hc => hnd c (mem_getConsWithVar.mp hc).1]

/-- C3 witness: the theorem applies to the concrete CSP and state of the
GAC witness. -/
theorem prop_FC_matches_reference_witness :
    (∀ c ∈ gacCsp.cons, c.scope.Nodup) ∧
      prop_FC gacCsp gacSt (some 0) = fcReference gacCsp gacSt (some 0) :=
  ⟨by decide, prop_FC_matches_reference gacCsp gacSt (by decide) (some 0)⟩

/-! ### C10: variable setup in the model builders -/

lemma getD_replicate_none (k w : Nat) :
    (List.replicate k (none : Option Int)).getD w none = none := by
  rw [List.getD_eq_getElem?_getD]
  rcases h : (List.replicate k (none : Option Int))[w]? with _ | x
  · rfl
  · have hmem := List.getElem?_mem h
    rw [List.eq_of_mem_replicate hmem]
    rfl

lemma scanCell_doms (grid : List (List Cell)) (vd : List Int) (row col : Nat) (b : BuildSt) :
    (scanCell grid vd row col b).doms =
      if col % 2 = 0 then b.doms ++ [var_setup (getCell grid row col) vd] else b.doms := by
  unfold scanCell
  by_cases h : col % 2 = 0
  · rw [if_pos h, if_pos h]
  · rw [if_neg h, if_neg h]
    by_cases h2 : 0 < col ∧ (getCell grid row (col - 1) = Cell.lt ∨ getCell grid row (col - 1) = Cell.gt)
    · rw [if_pos h2]
    · rw [if_neg h2]

lemma scanCols_doms (grid : List (List Cell)) (vd : List Int) (row : Nat) :
    ∀ (cols : List Nat) (b : BuildSt),
      (scanCols grid vd row b cols).doms =
        b.doms ++ (cols.filter fun col => col % 2 == 0).map
          (fun col => var_setup (getCell grid row col) vd) := by
  intro cols
  induction cols with
  | nil => intro b; simp [scanCols]
  | cons col rest ih =>
    intro b
    show (scanCols grid vd row (scanCell grid vd row col b) rest).doms = _
    rw [ih, scanCell_doms, List.filter_cons]
    by_cases h : col % 2 = 0
    · rw [if_pos h, if_pos (by simpa using h)]
      simp
    · rw [if_neg h, if_neg (by simpa using h)]

lemma range_evens : ∀ n : Nat,
    (List.range (2 * n - 1)).filter (fun col => col % 2 == 0) =
      (List.range n).map fun j => 2 * j := by
  intro n
  induction n with
  | zero => rfl
  | succ n ih =>
    cases n with
    | zero => rfl
    | succ m =>
      have h1 : 2 * (m + 1 + 1) - 1 = (2 * (m + 1) - 1) + 1 + 1 := by omega
      have h2 : (2 * (m + 1) - 1) + 1 = 2 * (m + 1) := by omega
      rw [h1, List.range_succ, List.range_succ, List.filter_append, List.filter_append, ih]
      have h3 : [2 * (m + 1) - 1].filter (fun col => col % 2 == 0) = [] := by
        have : (2 * (m + 1) - 1) % 2 = 1 := by omega
        simp [this]
      have h4 : [(2 * (m + 1) - 1) + 1].filter (fun col => col % 2 == 0) = [2 * (m + 1)] := by
        have : ((2 * (m + 1) - 1) + 1) % 2 = 0 := by omega
        simp [this, h2]
      rw [h3, h4]
      have h5 : List.range (m + 1 + 1) = List.range (m + 1) ++ [m + 1] := List.range_succ (m + 1)
      rw [h5, List.map_append]
      simp

lemma scanRows_doms (grid : List (List Cell)) (vd : List Int) (numCol : Nat) :
    ∀ (rows : List Nat) (b : BuildSt),
      (scanRows grid vd numCol b rows).doms =
        b.doms ++ rows.flatMap (fun r =>
          ((List.range numCol).filter fun col => col % 2 == 0).map
            (fun col => var_setup (getCell grid r col) vd)) := by
  intro rows
  induction rows with
  | nil => intro b; simp [scanRows]
  | cons r rest ih =>
    intro b
    show (scanRows grid vd numCol (scanCols grid vd r b (List.range numCol)) rest).doms = _
    rw [ih, scanCols_doms]
    simp

lemma flatMap_getD {α β : Type} (d : β) :
    ∀ (rows : List α) (f : α → List β) (n : Nat), (∀ r ∈ rows, (f r).length = n) →
      ∀ (i j : Nat) (hi : i < rows.length), j < n →
        (rows.flatMap f).getD (i * n + j) d = (f (rows.get ⟨i, hi⟩)).getD j d := by
  intro rows
  induction rows with
  | nil => intro f n _ i j hi _; cases hi
  | cons r rest ih =>
    intro f n hlen i j hi hj
    rw [List.flatMap_cons]
    cases i with
    | zero =>
      simp only [Nat.zero_mul, Nat.zero_add]
      rw [List.getD_append _ _ _ j (by rw [hlen r (List.mem_cons_self _ _)]; exact hj)]
      rfl
    | succ i2 =>
      rw [List.getD_append_right _ _ _ _ (by
        rw [hlen r (List.mem_cons_self _ _)]
        have hmul : (i2 + 1) * n = i2 * n + n := by ring
        omega)]
      have harith : (i2 + 1) * n + j - (f r).length = i2 * n + j := by
        rw [hlen r (List.mem_cons_self _ _)]
        have : (i2 + 1) * n = i2 * n + n := by ring
        omega
      rw [harith]
      exact ih f n (fun u hu => hlen u (List.mem_cons_of_mem _ hu)) i2 j
        (Nat.lt_of_succ_lt_succ hi) hj

lemma scanGrid_doms (grid : List (List Cell))
    (hlen : ∀ row ∈ grid, row.length = 2 * grid.length - 1) :
    (scanGrid grid).doms =
      (List.range grid.length).flatMap (fun r =>
        (List.range grid.length).map fun j =>
          var_setup (getCell grid r (2 * j)) (varDomainOf grid.length)) := by
  unfold scanGrid
  rw [scanRows_doms]
  have hnc : (grid.headD []).length = 2 * grid.length - 1 := by
    cases grid with
    | nil => rfl
    | cons row rest => exact hlen row (List.mem_cons_self _ _)
  rw [hnc, range_evens]
  simp only [List.nil_append, List.map_map]
  rfl

lemma scanGrid_doms_length (grid : List (List Cell))
    (hlen : ∀ row ∈ grid, row.length = 2 * grid.length - 1) :
    (scanGrid grid).doms.length = grid.length * grid.length := by
  rw [scanGrid_doms grid hlen, List.length_flatMap]
  have : List.map (List.length ∘ fun r =>
      (List.range grid.length).map fun j =>
        var_setup (getCell grid r (2 * j)) (varDomainOf grid.length)) (List.range grid.length) =
      List.map (fun _ => grid.length) (List.range grid.length) := by
    apply List.map_congr_left
    intro r _
    simp
  rw [this]
  simp [List.map_const]

/-- **C10**: in both model builders, every grid cell becomes an unassigned
variable (the initial assignment store is all-`none`), and the variable of
cell `(r, j)` gets original domain `var_setup(cell)`: `[1, ..., n]` for an
empty (`0`) cell and the singleton `[v]` for a pre-filled value `v` — never
an assigned value. -/
theorem var_setup_domains (grid : List (List Cell))
    (hlen : ∀ row ∈ grid, row.length = 2 * grid.length - 1) :
    ∀ M ∈ [futoshiki_csp_model_1 grid, futoshiki_csp_model_2 grid],
      M.init.assigned = List.replicate (grid.length * grid.length) none ∧
      (∀ w : Nat, getAssigned M.init w = none) ∧
      (∀ r j, r < grid.length → j < grid.length →
        curdomOf M.init (r * grid.length + j) =
          var_setup (getCell grid r (2 * j)) (varDomainOf grid.length)) ∧
      (∀ r j, r < grid.length → j < grid.length → ∀ x : Int,
        getCell grid r (2 * j) = Cell.num x →
        curdomOf M.init (r * grid.length + j) =
          if x = 0 then varDomainOf grid.length else [x]) := by
  have hdoms := scanGrid_doms grid hlen
  have hdl := scanGrid_doms_length grid hlen
  have hmain : ∀ M : BuiltModel, M.init = ⟨(scanGrid grid).doms,
      List.replicate (scanGrid grid).doms.length none⟩ →
      (M.init.assigned = List.replicate (grid.length * grid.length) none ∧
      (∀ w : Nat, getAssigned M.init w = none) ∧
      (∀ r j, r < grid.length → j < grid.length →
        curdomOf M.init (r * grid.length + j) =
          var_setup (getCell grid r (2 * j)) (varDomainOf grid.length)) ∧
      (∀ r j, r < grid.length → j < grid.length → ∀ x : Int,
        getCell grid r (2 * j) = Cell.num x →
        curdomOf M.init (r * grid.length + j) =
          if x = 0 then varDomainOf grid.length else [x])) := by
    intro M hM
    have hcur : ∀ r j, r < grid.length → j < grid.length →
        curdomOf M.init (r * grid.length + j) =
          var_setup (getCell grid r (2 * j)) (varDomainOf grid.length) := by
      intro r j hr hj
      rw [hM]
      show (scanGrid grid).doms.getD (r * grid.length + j) [] = _
      rw [hdoms]
      rw [flatMap_getD [] (List.range grid.length) _ grid.length
        (by intro u _; simp) r j (by simpa using hr) hj]
      have hg : (List.range grid.length).get ⟨r, by simpa using hr⟩ = r := List.getElem_range _ _
      rw [hg]
      rw [List.getD_eq_getElem _ _ (by simpa using hj)]
      simp
    refine ⟨?_, ?_, hcur, ?_⟩
    · rw [hM, hdl]
    · intro w
      rw [hM]
      show (List.replicate (scanGrid grid).doms.length (none : Option Int)).getD w none = none
      exact getD_replicate_none _ w
    · intro r j hr hj x hx
      rw [hcur r j hr hj, hx]
      rfl
  intro M hM
  rcases List.mem_cons.mp hM with rfl | hM2
  · exact hmain _ rfl
  · rcases List.mem_cons.mp hM2 with rfl | hM3
    · exact hmain _ rfl
    · cases hM3

/-- Concrete 2×2 grid for the C10 witness: top-left pre-filled with 1, the
rest empty. -/
def grid2 : List (List Cell) :=
  [[Cell.num 1, Cell.dot, Cell.num 0], [Cell.num 0, Cell.dot, Cell.num 0]]

/-- C10 witness: the theorem applies to the concrete 2×2 grid. -/
theorem var_setup_domains_witness :
    (∀ row ∈ grid2, row.length = 2 * grid2.length - 1) ∧
      ∀ M ∈ [futoshiki_csp_model_1 grid2, futoshiki_csp_model_2 grid2],
        M.init.assigned = List.replicate (grid2.length * grid2.length) none ∧
        (∀ w : Nat, getAssigned M.init w = none) ∧
        (∀ r j, r < grid2.length → j < grid2.length →
          curdomOf M.init (r * grid2.length + j) =
            var_setup (getCell grid2 r (2 * j)) (varDomainOf grid2.length)) ∧
        (∀ r j, r < grid2.length → j < grid2.length → ∀ x : Int,
          getCell grid2 r (2 * j) = Cell.num x →
          curdomOf M.init (r * grid2.length + j) =
            if x = 0 then varDomainOf grid2.length else [x]) :=
  ⟨by decide, var_setup_domains grid2 (by decide)⟩

/-! ### C8: the two models agree on the empty 3×3 grid -/

/-- The domain `{1, 2, 3}`. -/
def d3 : List Int := [1, 2, 3]

/-- The not-equal tuple set over `{1, 2, 3} × {1, 2, 3}`. -/
def neT : List (List Int) := notEqTuples d3 d3

/-- The all-different tuple set over `{1, 2, 3}³`. -/
def adT : List (List Int) := all_diff_tuples [d3, d3, d3] 3

/-- The 18 binary not-equal constraints model 1 builds on `grid3`. -/
def model1Cons3 : List Constraint :=
  [⟨[0, 1], neT⟩, ⟨[0, 3], neT⟩, ⟨[0, 2], neT⟩, ⟨[0, 6], neT⟩, ⟨[1, 2], neT⟩, ⟨[3, 6], neT⟩,
    ⟨[3, 4], neT⟩, ⟨[1, 4], neT⟩, ⟨[3, 5], neT⟩, ⟨[1, 7], neT⟩, ⟨[4, 5], neT⟩, ⟨[4, 7], neT⟩,
    ⟨[6, 7], neT⟩, ⟨[2, 5], neT⟩, ⟨[6, 8], neT⟩, ⟨[2, 8], neT⟩, ⟨[7, 8], neT⟩, ⟨[5, 8], neT⟩]

/-- The 6 all-different constraints model 2 builds on `grid3`. -/
def model2Cons3 : List Constraint :=
  [⟨[0, 1, 2], adT⟩, ⟨[0, 3, 6], adT⟩, ⟨[3, 4, 5], adT⟩, ⟨[1, 4, 7], adT⟩,
    ⟨[6, 7, 8], adT⟩, ⟨[2, 5, 8], adT⟩]

lemma model1_grid3_cons : (futoshiki_csp_model_1 grid3).csp.cons = model1Cons3 := by decide

lemma model2_grid3_cons : (futoshiki_csp_model_2 grid3).csp.cons = model2Cons3 := by decide

lemma ne_mem_iff (x y : Int) : [x, y] ∈ neT ↔ (x ∈ d3 ∧ y ∈ d3 ∧ x ≠ y) := by
  have he : neT = [[1, 2], [1, 3], [2, 1], [2, 3], [3, 1], [3, 2]] := by decide
  rw [he]
  simp only [List.mem_cons, List.not_mem_nil, or_false, List.cons.injEq, and_true]
  constructor
  · rintro (⟨rfl, rfl⟩ | ⟨rfl, rfl⟩ | ⟨rfl, rfl⟩ | ⟨rfl, rfl⟩ | ⟨rfl, rfl⟩ | ⟨rfl, rfl⟩) <;>
      refine ⟨by decide, by decide, by decide⟩
  · rintro ⟨hx, hy, hne⟩
    simp only [d3, List.mem_cons, List.not_mem_nil, or_false] at hx hy
    rcases hx with rfl | rfl | rfl <;> rcases hy with rfl | rfl | rfl <;> simp_all

lemma ad_mem_iff (x y z : Int) :
    [x, y, z] ∈ adT ↔ (x ∈ d3 ∧ y ∈ d3 ∧ z ∈ d3 ∧ x ≠ y ∧ x ≠ z ∧ y ≠ z) := by
  have he : adT = [[1, 2, 3], [1, 3, 2], [2, 1, 3], [2, 3, 1], [3, 1, 2], [3, 2, 1]] := by decide
  rw [he]
  simp only [List.mem_cons, List.not_mem_nil, or_false, List.cons.injEq, and_true]
  constructor
  · rintro (⟨rfl, rfl, rfl⟩ | ⟨rfl, rfl, rfl⟩ | ⟨rfl, rfl, rfl⟩ | ⟨rfl, rfl, rfl⟩ |
      ⟨rfl, rfl, rfl⟩ | ⟨rfl, rfl, rfl⟩) <;>
      exact ⟨by decide, by decide, by decide, by decide, by decide, by decide⟩
  · rintro ⟨hx, hy, hz, hxy, hxz, hyz⟩
    simp only [d3, List.mem_cons, List.not_mem_nil, or_false] at hx hy hz
    rcases hx with rfl | rfl | rfl <;> rcases hy with rfl | rfl | rfl <;>
      rcases hz with rfl | rfl | rfl <;> simp_all

/-- The 3×3 Latin-square condition: all nine entries lie in `{1, 2, 3}` and
the entries of every row and of every column are pairwise distinct
(variable ids are row-major: cell `(r, j)` is `3 r + j`). -/
def isLatin3 (a : Nat → Int) : Prop :=
  (a 0 ∈ d3 ∧ a 1 ∈ d3 ∧ a 2 ∈ d3 ∧ a 3 ∈ d3 ∧ a 4 ∈ d3 ∧
    a 5 ∈ d3 ∧ a 6 ∈ d3 ∧ a 7 ∈ d3 ∧ a 8 ∈ d3) ∧
  (a 0 ≠ a 1 ∧ a 0 ≠ a 2 ∧ a 1 ≠ a 2 ∧
    a 3 ≠ a 4 ∧ a 3 ≠ a 5 ∧ a 4 ≠ a 5 ∧
    a 6 ≠ a 7 ∧ a 6 ≠ a 8 ∧ a 7 ≠ a 8) ∧
  (a 0 ≠ a 3 ∧ a 0 ≠ a 6 ∧ a 3 ≠ a 6 ∧
    a 1 ≠ a 4 ∧ a 1 ≠ a 7 ∧ a 4 ≠ a 7 ∧
    a 2 ≠ a 5 ∧ a 2 ≠ a 8 ∧ a 5 ≠ a 8)

lemma model1_grid3_iff (a : Nat → Int) :
    (∀ c ∈ (futoshiki_csp_model_1 grid3).csp.cons, satisfiesC a c) ↔ isLatin3 a := by
  rw [model1_grid3_cons]
  simp [model1Cons3, satisfiesC, ne_mem_iff, isLatin3]
  tauto

lemma model2_grid3_iff (a : Nat → Int) :
    (∀ c ∈ (futoshiki_csp_model_2 grid3).csp.cons, satisfiesC a c) ↔ isLatin3 a := by
  rw [model2_grid3_cons]
  simp [model2Cons3, satisfiesC, ad_mem_iff, isLatin3]
  tauto

/-- **C8**: on the empty 3×3 grid (no inequality symbols, all domains
`{1, 2, 3}`), a full assignment satisfies every constraint of
`futoshiki_csp_model_1` iff it satisfies every constraint of
`futoshiki_csp_model_2`, and both solution sets are exactly the 3×3 Latin
squares. -/
theorem futoshiki_models_equiv_3x3 (a : Nat → Int) :
    ((∀ c ∈ (futoshiki_csp_model_1 grid3).csp.cons, satisfiesC a c) ↔
      (∀ c ∈ (futoshiki_csp_model_2 grid3).csp.cons, satisfiesC a c)) ∧
    ((∀ c ∈ (futoshiki_csp_model_1 grid3).csp.cons, satisfiesC a c) ↔ isLatin3 a) ∧
    ((∀ c ∈ (futoshiki_csp_model_2 grid3).csp.cons, satisfiesC a c) ↔ isLatin3 a) :=
  ⟨(model1_grid3_iff a).trans (model2_grid3_iff a).symm, model1_grid3_iff a,
    model2_grid3_iff a⟩

example : isLatin3 fun i => ([1, 2, 3, 2, 3, 1, 3, 1, 2] : List Int).getD i 0 := by
  simp only [isLatin3]
  decide

example : ¬ isLatin3 fun i => ([1, 2, 3, 2, 3, 1, 3, 1, 1] : List Int).getD i 0 := by
  simp only [isLatin3]
  decide
